import Mathlib

/-!
# slsa-github-generator-node, package `pkg`: a verification development

A shallow embedding of `pkg/build.go` and `pkg/config.go` together with the
pieces of the Go standard library they call (`strings`, `unicode/utf8`,
`encoding/json`, `encoding/base64`), followed by theorems about the embedded
functions.

Conventions of the embedding

* A Go `string` is an immutable sequence of bytes; it is embedded as the list
  of its bytes, each byte a natural number below 256.  No byte arithmetic of
  the source can overflow, so no reduction modulo 256 is needed.
* A Go `[]string` may be `nil`, and `json.Marshal` tells the nil slice from an
  empty one; a slice is embedded as an `Option (List GoString)`, `none` being
  the nil slice.
* A Go `map[string]string` is embedded as an association list with unique
  keys; the only map operations of the source are indexed assignment and
  `len`.
* A result `(T, error)` is embedded as `Except GoError T`.
* Pointers that the source dereferences without a nil check (`cf`, `b`,
  `b.pkgJson`) are embedded as the value they point to.
* What `Run` writes to standard output is embedded as the list of its writes,
  one for each call of `fmt.Printf` or `fmt.Println`; what `os.Environ()`
  returns is an argument of the embedded function, and `os.Environ` itself is
  embedded as a function of the environment block the process was started
  with; the call of `syscall.Exec` is embedded as the way `Run` ends, with the
  arguments of the call.

The first part of the file holds the definitions, the second part the lemmas
and the theorems.
-/

/-! # Part I: definitions -/

/-- A Go string, as the sequence of its bytes. -/
abbrev GoString := List Nat

/-- The bytes of an ASCII string literal of the source. -/
def str (s : String) : GoString := s.toList.map Char.toNat

/-- A Go `[]string`; `none` is the nil slice. -/
abbrev StringSlice := Option (List GoString)

/-- The elements a `range` over the slice visits, in order. -/
def StringSlice.elems : StringSlice → List GoString
  | none => []
  | some l => l

/-- A Go `map[string]string` that is not nil. -/
abbrev StringMap := List (GoString × GoString)

/-- Go: `m[k] = v`. -/
def StringMap.set : StringMap → GoString → GoString → StringMap
  | [], k, v => [(k, v)]
  | (k', v') :: rest, k, v =>
    if k' = k then (k, v) :: rest else (k', v') :: StringMap.set rest k v

/-- Go: `v, ok := m[k]`. -/
def StringMap.get : StringMap → GoString → Option GoString
  | [], _ => none
  | (k', v') :: rest, k => if k' = k then some v' else StringMap.get rest k

/-! ## The error values -/

/-- The error variables declared with `errors.New` in `build.go` and
`config.go`. -/
inductive Sentinel
  | errorEnvVariableNameEmpty
  | errorUnsupportedArguments
  | errorInvalidEnvArgument
  | errorEnvVariableNameNotAllowed
  | errorInvalidFilename
  | errorEmptyFilename
  | errorInvalidEnvironmentVariable
  | errorUnsupportedVersion
  deriving DecidableEq, Repr

/-- The values of type `error` the embedded functions build. -/
inductive GoError
  /-- Built by `fmt.Errorf("%w: %s", sentinel, s)`. -/
  | wrapString (sentinel : Sentinel) (s : GoString)
  /-- Built by `fmt.Errorf("%w:%d", sentinel, d)`. -/
  | wrapInt (sentinel : Sentinel) (d : Int)
  /-- Built by `fmt.Errorf("<text>: %w", err)`. -/
  | context (text : GoString) (err : GoError)
  deriving DecidableEq, Repr

deriving instance DecidableEq for Except

/-! ## Package `strings` -/

namespace strings

/-- Go: `len(s) >= len(prefix) && s[:len(prefix)] == prefix`. -/
def HasPrefix (s pre : GoString) : Bool :=
  decide (s.length ≥ pre.length) && decide (s.take pre.length = pre)

/-- The loop of `strings.Split(s, sep)` for a separator `sep` of one byte, which
is what every call in the source passes ("=", "," and ":").  `cur` holds the
bytes of the current piece, most recent first. -/
def splitLoop (sep : Nat) (cur : GoString) : GoString → List GoString
  | [] => [cur.reverse]
  | b :: rest =>
    if b = sep then cur.reverse :: splitLoop sep [] rest
    else splitLoop sep (b :: cur) rest

/-- Go: `strings.Split(s, sep)` with a one-byte separator: the pieces of `s`
between the occurrences of `sep`; an empty `s` gives the single empty piece. -/
def Split (s : GoString) (sep : Nat) : List GoString := splitLoop sep [] s

/-- Go: `strings.TrimLeft(s, cutset)` for an ASCII cutset. -/
def TrimLeft (s : GoString) (cutset : GoString) : GoString :=
  s.dropWhile (fun b => decide (b ∈ cutset))

/-- Go: `strings.TrimRight(s, cutset)` for an ASCII cutset. -/
def TrimRight (s : GoString) (cutset : GoString) : GoString :=
  (s.reverse.dropWhile (fun b => decide (b ∈ cutset))).reverse

/-- Go: `strings.Trim(s, cutset)` for an ASCII cutset (the source passes " "):
all leading and trailing bytes contained in `cutset` are removed. -/
def Trim (s : GoString) (cutset : GoString) : GoString :=
  TrimRight (TrimLeft s cutset) cutset

end strings

/-! ## Package `unicode/utf8` -/

namespace utf8

/-- Go: `utf8.RuneError`, the replacement character U+FFFD. -/
def RuneError : Nat := 0xFFFD

/-- Go: `utf8.RuneSelf`. -/
def RuneSelf : Nat := 0x80

/-- Go: `utf8.DecodeRuneInString(s)`: the first rune of `s` and the number of
bytes it takes; `(RuneError, 1)` when the bytes at the head of `s` are not the
UTF-8 encoding of a rune.  The tables `first` and `acceptRanges` of the library
are written out as comparisons: lead bytes C2..DF start 2 bytes, E0..EF 3,
F0..F4 4, the second byte is in 80..BF but for the lead bytes E0 (A0..BF),
ED (80..9F), F0 (90..BF) and F4 (80..8F). -/
def DecodeRuneInString (s : GoString) : Nat × Nat :=
  match s with
  | [] => (RuneError, 0)
  | s0 :: _ =>
    if s0 < RuneSelf then (s0, 1)
    else if s0 < 0xC2 ∨ 0xF4 < s0 then (RuneError, 1)
    else
      let sz := if s0 < 0xE0 then 2 else if s0 < 0xF0 then 3 else 4
      let lo := if s0 = 0xE0 then 0xA0 else if s0 = 0xF0 then 0x90 else 0x80
      let hi := if s0 = 0xED then 0x9F else if s0 = 0xF4 then 0x8F else 0xBF
      if s.length < sz then (RuneError, 1)
      else
        let s1 := s.getD 1 0
        if s1 < lo ∨ hi < s1 then (RuneError, 1)
        else if sz ≤ 2 then ((s0 &&& 0x1F) <<< 6 ||| (s1 &&& 0x3F), 2)
        else
          let s2 := s.getD 2 0
          if s2 < 0x80 ∨ 0xBF < s2 then (RuneError, 1)
          else if sz ≤ 3 then
            ((s0 &&& 0x0F) <<< 12 ||| (s1 &&& 0x3F) <<< 6 ||| (s2 &&& 0x3F), 3)
          else
            let s3 := s.getD 3 0
            if s3 < 0x80 ∨ 0xBF < s3 then (RuneError, 1)
            else
              ((s0 &&& 0x07) <<< 18 ||| (s1 &&& 0x3F) <<< 12 ||| (s2 &&& 0x3F) <<< 6
                ||| (s3 &&& 0x3F), 4)

/-- The loop of `utf8.ValidString` over the rest `s` of the string: no position
at which decoding reports `(RuneError, 1)`.  `fuel` bounds the number of
iterations; each one consumes at least one byte. -/
def validLoop : Nat → GoString → Bool
  | 0, s => s.isEmpty
  | fuel + 1, s =>
    match s with
    | [] => true
    | _ :: _ =>
      let r := DecodeRuneInString s
      if r.1 = RuneError ∧ r.2 = 1 then false
      else validLoop fuel (s.drop r.2)

/-- Go: `utf8.ValidString(s)`: `s` consists entirely of valid UTF-8-encoded
runes. -/
def ValidString (s : GoString) : Bool := validLoop s.length s

/-- Go: `utf8.AppendRune(nil, r)`, the UTF-8 encoding of the rune `r`; a
surrogate or a value above U+10FFFF is encoded as U+FFFD. -/
def EncodeRune (r : Nat) : GoString :=
  if r ≤ 0x7F then [r]
  else if r ≤ 0x7FF then [0xC0 ||| r >>> 6, 0x80 ||| (r &&& 0x3F)]
  else if 0x10FFFF < r ∨ (0xD800 ≤ r ∧ r ≤ 0xDFFF) then [0xEF, 0xBF, 0xBD]
  else if r ≤ 0xFFFF then
    [0xE0 ||| r >>> 12, 0x80 ||| (r >>> 6 &&& 0x3F), 0x80 ||| (r &&& 0x3F)]
  else
    [0xF0 ||| r >>> 18, 0x80 ||| (r >>> 12 &&& 0x3F), 0x80 ||| (r >>> 6 &&& 0x3F),
      0x80 ||| (r &&& 0x3F)]

end utf8

/-! ## Package `encoding/json`, the encoder -/

namespace json

/-- Go: the table `hex = "0123456789abcdef"`, indexed. -/
def hex (n : Nat) : Nat := (str "0123456789abcdef").getD n 0

/-- Go: `htmlSafeSet[b]` for a byte below `utf8.RuneSelf`: the ASCII bytes
written to a JSON string as they are when HTML escaping is on, which are the
bytes from the space on, without the double quote, the backslash and the
characters less-than, greater-than and ampersand. -/
def htmlSafeSet (b : Nat) : Bool :=
  decide (0x20 ≤ b ∧ b < 0x80 ∧ b ≠ 0x22 ∧ b ≠ 0x26 ∧ b ≠ 0x3C ∧ b ≠ 0x3E ∧ b ≠ 0x5C)

/-- What the string encoder writes for an ASCII byte outside `htmlSafeSet`
(the `switch b` of `appendString`).  Releases of Go before 1.22 have no case
for backspace and form feed and write them as backslash-u escapes. -/
def escapeByte (b : Nat) : GoString :=
  if b = 0x5C ∨ b = 0x22 then [0x5C, b]
  else if b = 0x08 then str "\\b"
  else if b = 0x0C then str "\\f"
  else if b = 0x0A then str "\\n"
  else if b = 0x0D then str "\\r"
  else if b = 0x09 then str "\\t"
  else str "\\u00" ++ [hex (b >>> 4), hex (b &&& 0xF)]

/-- The loop `for i := 0; i < len(src); ...` of the string encoder
`appendString(dst, src, escapeHTML)` with `escapeHTML` true, as
`json.Marshal` calls it.  `s` is the rest `src[i:]` of the string, the result
is what the loop appends to `dst` from there on; the source copies the bytes
that need no escape in runs `src[start:i]`, the embedding copies them one rune
at a time.  `fuel` bounds the number of iterations; each one consumes at least
one byte. -/
def appendStringLoop : Nat → GoString → GoString
  | 0, _ => []
  | fuel + 1, s =>
    match s with
    | [] => []
    | b :: rest =>
      if b < utf8.RuneSelf then
        if htmlSafeSet b then b :: appendStringLoop fuel rest
        else escapeByte b ++ appendStringLoop fuel rest
      else
        let r := utf8.DecodeRuneInString s
        if r.1 = utf8.RuneError ∧ r.2 = 1 then
          str "\\ufffd" ++ appendStringLoop fuel (s.drop r.2)
        else if r.1 = 0x2028 ∨ r.1 = 0x2029 then
          str "\\u202" ++ [hex (r.1 &&& 0xF)] ++ appendStringLoop fuel (s.drop r.2)
        else s.take r.2 ++ appendStringLoop fuel (s.drop r.2)

/-- Go: `appendString(nil, src, true)`: the JSON string literal for `src`. -/
def appendString (src : GoString) : GoString :=
  [0x22] ++ appendStringLoop src.length src ++ [0x22]

/-- The loop of the slice encoder (`arrayEncoder.encode`):
`for i := 0; i < n; i++ { if i > 0 { write ',' }; encode element i }`;
`first` tells whether `i` is 0. -/
def encodeElems : Bool → List GoString → GoString
  | _, [] => []
  | first, s :: rest =>
    (if first then [] else [0x2C]) ++ appendString s ++ encodeElems false rest

/-- Go: `json.Marshal(v)` for a `v` of type `[]string`: the nil slice is
written as `null` (`sliceEncoder.encode`), any other slice as `[`, the string
literals of the elements separated by commas, `]`.  No value of this type
makes the encoder fail. -/
def Marshal (v : StringSlice) : Except GoError GoString :=
  match v with
  | none => .ok (str "null")
  | some l => .ok ([0x5B] ++ encodeElems true l ++ [0x5D])

end json

/-! ## Package `encoding/base64`, the encoder -/

namespace base64

/-- Go: `const encodeStd`, the alphabet of `base64.StdEncoding`. -/
def encodeStd : GoString :=
  str "ABCDEFGHIJKLMNOPQRSTUVWXYZabcdefghijklmnopqrstuvwxyz0123456789+/"

/-- Go: `enc.encode[i]` for `StdEncoding`. -/
def encode (i : Nat) : Nat := encodeStd.getD i 0

/-- Go: `StdPadding`, the character '='. -/
def StdPadding : Nat := 0x3D

/-- Go: `base64.StdEncoding.EncodeToString(src)`: every 3 bytes are written as
4 characters of the alphabet; a rest of 1 or 2 bytes is written as 2 or 3
characters and padded with '=' to 4. -/
def EncodeToString : GoString → GoString
  | [] => []
  | [a] =>
    let val := a <<< 16
    [encode (val >>> 18 &&& 0x3F), encode (val >>> 12 &&& 0x3F), StdPadding, StdPadding]
  | [a, b] =>
    let val := a <<< 16 ||| b <<< 8
    [encode (val >>> 18 &&& 0x3F), encode (val >>> 12 &&& 0x3F),
      encode (val >>> 6 &&& 0x3F), StdPadding]
  | a :: b :: c :: rest =>
    let val := a <<< 16 ||| b <<< 8 ||| c
    [encode (val >>> 18 &&& 0x3F), encode (val >>> 12 &&& 0x3F),
      encode (val >>> 6 &&& 0x3F), encode (val &&& 0x3F)] ++ EncodeToString rest

end base64

/-! ## `pkg/config.go` -/

/-- The keys of the map `supportedVersions`. -/
def supportedVersions : List Int := [1]

/-- Go: `type goReleaserConfigFile struct`. -/
structure goReleaserConfigFile where
  Goos : GoString
  Goarch : GoString
  Env : StringSlice
  Flags : StringSlice
  Ldflags : StringSlice
  Binary : GoString
  Version : Int
  deriving DecidableEq, Repr

/-- Go: `type GoReleaserConfig struct`; `Env` is `none` for the nil map. -/
structure GoReleaserConfig where
  Goos : GoString
  Goarch : GoString
  Env : Option StringMap
  Flags : StringSlice
  Ldflags : StringSlice
  Binary : GoString
  deriving DecidableEq, Repr

/-- Go: `type PkgJsonConfig struct`. -/
structure PkgJsonConfig where
  Name : GoString
  Version : GoString
  deriving DecidableEq, Repr

/-- Go: `type pkgJsonConfigFile struct`. -/
structure pkgJsonConfigFile where
  Name : GoString
  Version : GoString
  deriving DecidableEq, Repr

/-- Go: `func validateVersion(cf *goReleaserConfigFile) error`; `none` is the
nil error. -/
def validateVersion (cf : goReleaserConfigFile) : Option GoError :=
  if cf.Version ∉ supportedVersions then
    some (.wrapInt .errorUnsupportedVersion cf.Version)
  else none

/-- The loop `for _, e := range cf.Env` of `setEnvs` on the map `m`: the map
when the loop runs to its end, the error of the first `return` otherwise. -/
def setEnvsLoop (m : StringMap) : List GoString → Except GoError StringMap
  | [] => .ok m
  | e :: rest =>
    let es := strings.Split e 0x3D
    if es.length ≠ 2 then .error (.wrapString .errorInvalidEnvironmentVariable e)
    else setEnvsLoop (m.set (es.getD 0 []) (es.getD 1 [])) rest

/-- Go: `func (r *GoReleaserConfig) setEnvs(cf *goReleaserConfigFile) error`;
the result is the receiver after the call, or the error. -/
def setEnvs (r : GoReleaserConfig) (cf : goReleaserConfigFile) :
    Except GoError GoReleaserConfig :=
  match setEnvsLoop [] cf.Env.elems with
  | .error err => .error err
  | .ok m => if m.length > 0 then .ok { r with Env := some m } else .ok r

/-- Go: `func fromConfig(cf *goReleaserConfigFile) (*GoReleaserConfig, error)`. -/
def fromConfig (cf : goReleaserConfigFile) : Except GoError GoReleaserConfig :=
  match validateVersion cf with
  | some err => .error err
  | none =>
    let cfg : GoReleaserConfig :=
      { Goos := cf.Goos, Goarch := cf.Goarch, Env := none, Flags := cf.Flags,
        Ldflags := cf.Ldflags, Binary := cf.Binary }
    match setEnvs cfg cf with
    | .error err => .error err
    | .ok cfg => .ok cfg

/-- Go: `func pkgJSONFromConfig(cf *pkgJsonConfigFile) (*PkgJsonConfig, error)`. -/
def pkgJSONFromConfig (cf : pkgJsonConfigFile) : Except GoError PkgJsonConfig :=
  .ok { Name := cf.Name, Version := cf.Version }

/-! ## `pkg/build.go` -/

/-- The keys of the map `allowedBuildArgs`; every key is mapped to `true` and
the source only ranges over the keys. -/
def allowedBuildArgs : List GoString :=
  [str "--workspace", str "--include-workspace-root"]

/-- The keys of the map `allowedEnvVariablePrefix`. -/
def allowedEnvVariablePrefix : List GoString := [str "NODE_"]

/-- Go: `type NodeBuild struct`.  `argEnv` is never the nil map: the source
builds a `NodeBuild` in `NodeBuildNew` only. -/
structure NodeBuild where
  pkgJson : PkgJsonConfig
  node : GoString
  npm : GoString
  argEnv : StringMap
  deriving DecidableEq, Repr

/-- Go: `func NodeBuildNew(node string, npm string, pkgJson *PkgJsonConfig) *NodeBuild`. -/
def NodeBuildNew (node npm : GoString) (pkgJson : PkgJsonConfig) : NodeBuild :=
  { pkgJson := pkgJson, node := node, npm := npm, argEnv := [] }

/-- Go: `func marshallList(args []string) (string, error)`.  The second
`if err != nil` of the source tests the error of `json.Marshal` again, which is
nil there. -/
def marshallList (args : StringSlice) : Except GoError GoString :=
  match json.Marshal args with
  | .error err => .error (.context (str "json.Marshal") err)
  | .ok jsonData => .ok (base64.EncodeToString jsonData)

/-- The loop `for _, e := range strings.Split(envs, ",")` of
`SetArgEnvVariables` on the map `argEnv`: the error returned (`none` when the
loop runs to its end) and the map as the loop leaves it.  The line the source
prints for each pair is not part of the embedding. -/
def setArgEnvLoop (argEnv : StringMap) : List GoString → Option GoError × StringMap
  | [] => (none, argEnv)
  | e :: rest =>
    let s := strings.Trim e (str " ")
    let sp := strings.Split s 0x3A
    if sp.length ≠ 2 then (some (.wrapString .errorInvalidEnvArgument s), argEnv)
    else
      let name := strings.Trim (sp.getD 0 []) (str " ")
      let value := strings.Trim (sp.getD 1 []) (str " ")
      setArgEnvLoop (argEnv.set name value) rest

/-- Go: `func (b *NodeBuild) SetArgEnvVariables(envs string) error`: the error
returned (`none` for nil) and the builder after the call. -/
def SetArgEnvVariables (b : NodeBuild) (envs : GoString) : Option GoError × NodeBuild :=
  if envs = [] then (none, b)
  else
    let r := setArgEnvLoop b.argEnv (strings.Split envs 0x2C)
    (r.1, { b with argEnv := r.2 })

/-- Go: `func (b *NodeBuild) generateOutputFilename() (string, error)`. -/
def generateOutputFilename (b : NodeBuild) : Except GoError GoString :=
  .ok (b.pkgJson.Name ++ str "-" ++ b.pkgJson.Version ++ str ".tgz")

/-- The loop `for k := range m { if strings.HasPrefix(x, k) { return true } }`
followed by `return false`, over the keys in the order the range visits them. -/
def rangeHasPrefix (x : GoString) : List GoString → Bool
  | [] => false
  | k :: ks => if strings.HasPrefix x k then true else rangeHasPrefix x ks

/-- Go: `func isAllowedArg(arg string) bool`. -/
def isAllowedArg (arg : GoString) : Bool := rangeHasPrefix arg allowedBuildArgs

/-- Go: `func isAllowedEnvVariable(name string) bool`. -/
def isAllowedEnvVariable (name : GoString) : Bool :=
  rangeHasPrefix name allowedEnvVariablePrefix

/-- Go: the built-in `append(s, t...)` on values of type `[]string`: the
elements of `s` followed by those of `t`; appending no element to the nil slice
gives the nil slice. -/
def appendSlice (s t : StringSlice) : StringSlice :=
  match s, t.elems with
  | none, [] => none
  | _, l => some (s.elems ++ l)

/-- Go: `func (b *NodeBuild) generateFlags() ([]string, error)`.  The loop over
`b.cfg.Flags` with its call of `isAllowedArg` is commented out in the source
("TODO: add support for flags in Node.js build"), and `NodeBuild` has no field
`cfg`: the function returns `[]string{}`, the empty slice that is not nil, and
a nil error. -/
def generateFlags (_b : NodeBuild) : Except GoError StringSlice :=
  let flags : StringSlice := some []
  .ok flags

/-- Go: `func (b *NodeBuild) generateCommandEnvVariables() ([]string, error)`.
The loop over `b.cfg.Env` with its call of `isAllowedEnvVariable` is commented
out in the source: the function returns `env`, declared by `var env []string`
and so the nil slice, and a nil error. -/
def generateCommandEnvVariables (_b : NodeBuild) : Except GoError StringSlice :=
  let env : StringSlice := none
  .ok env

/-- Go: the loop of `syscall.copyenv` (Unix), which `syscall.Environ` runs once
over the environment block `envs` the process was started with: an entry
that holds a '=' has as key what stands before its first '='; the first entry
with a key is recorded in the map `env`, whose keys are `seen`, and every later
entry with a key of the map is cleared (`envs[i] = ""`).  The result is `envs`
after the loop. -/
def syscall.copyenvLoop (seen : List GoString) : List GoString → List GoString
  | [] => []
  | s :: rest =>
    if 0x3D ∈ s then
      let key := s.takeWhile (fun b => decide (b ≠ 0x3D))
      if key ∈ seen then [] :: syscall.copyenvLoop seen rest
      else s :: syscall.copyenvLoop (key :: seen) rest
    else s :: syscall.copyenvLoop seen rest

/-- Go: `syscall.Environ()` (Unix) for a process started with the environment
block `envs`: after `copyenv`, the entries of `envs` that are not empty, in a
new slice that is not nil.  The package calls neither `Setenv` nor
`Unsetenv`. -/
def syscall.Environ (envs : List GoString) : List GoString :=
  (syscall.copyenvLoop [] envs).filter (fun s => decide (s ≠ []))

/-- Go: `os.Environ()`, which returns `syscall.Environ()`; `inherited` is the
environment block the process was started with. -/
def os.Environ (inherited : List GoString) : List GoString := syscall.Environ inherited

/-- The statements of `generateEnvVariables` that follow its two calls: `environ`
is what `os.Environ()` returned, a slice that is not nil, and `r` is what
`b.generateCommandEnvVariables()` returned. -/
def generateEnvVariablesFrom (environ : List GoString) (r : Except GoError StringSlice) :
    Except GoError StringSlice :=
  let env : StringSlice := some environ
  match r with
  | .error err => .error err
  | .ok cenv => .ok (appendSlice env cenv)

/-- Go: `func (b *NodeBuild) generateEnvVariables() ([]string, error)`.
`environ` is what `os.Environ()` returns, a slice that is not nil. -/
def generateEnvVariables (b : NodeBuild) (environ : List GoString) :
    Except GoError StringSlice :=
  generateEnvVariablesFrom environ (generateCommandEnvVariables b)

/-- Go: what `fmt.Printf(format, arg)` writes for a format that is a text
followed by `%s\n`. -/
def fmt.Printf (text arg : GoString) : GoString := text ++ arg ++ str "\n"

/-- Go: what `fmt.Println(label, list)` writes for a string and a `[]string`:
the label, a space, the elements separated by spaces between square brackets, a
line feed. -/
def fmt.Println (label : GoString) (list : StringSlice) : GoString :=
  label ++ str " " ++ (str "[" ++ List.intercalate (str " ") list.elems ++ str "]") ++ str "\n"

/-- How a call of `Run` ends. -/
inductive RunEnd
  /-- The call returns the error, `none` for nil. -/
  | returned (err : Option GoError)
  /-- The call reaches `syscall.Exec(argv0, argv, envv)`, which replaces the
  process image and does not return, or returns the error of the operating
  system, which `Run` returns. -/
  | exec (argv0 : GoString) (argv : StringSlice) (envv : StringSlice)
  deriving DecidableEq, Repr

/-- What a call of `Run` does: the writes to standard output, one element for
each call of `fmt.Printf` or `fmt.Println`, in order, and how the call ends. -/
structure RunResult where
  stdout : List GoString
  outcome : RunEnd
  deriving DecidableEq, Repr

/-- Go: `func (b *NodeBuild) Run(dry bool) error`; `environ` is what
`os.Environ()` returns. -/
def Run (b : NodeBuild) (dry : Bool) (environ : List GoString) : RunResult :=
  match generateFlags b with
  | .error err => { stdout := [], outcome := .returned (some err) }
  | .ok flags =>
    match generateEnvVariables b environ with
    | .error err => { stdout := [], outcome := .returned (some err) }
    | .ok envs =>
      let com := appendSlice (some [b.node, b.npm, str "pack"]) flags
      if dry then
        match generateOutputFilename b with
        | .error err => { stdout := [], outcome := .returned (some err) }
        | .ok filename =>
          let out1 := [fmt.Printf (str "::set-output name=node-package-name::") filename]
          match marshallList com with
          | .error err => { stdout := out1, outcome := .returned (some err) }
          | .ok command =>
            let out2 := out1 ++ [fmt.Printf (str "::set-output name=node-command::") command]
            match generateCommandEnvVariables b with
            | .error err => { stdout := out2, outcome := .returned (some err) }
            | .ok env =>
              match marshallList env with
              | .error err => { stdout := out2, outcome := .returned (some err) }
              | .ok menv =>
                { stdout := out2 ++ [fmt.Printf (str "::set-output name=node-env::") menv],
                  outcome := .returned none }
      else
        { stdout := [fmt.Println (str "command") com, fmt.Println (str "env") envs],
          outcome := .exec b.node com envs }

/-! ## The reader of the dry-run reports and the array text of the specification -/

/-- The JSON text of an array of strings in the words of the specification: an
opening bracket, the string literals of the elements separated by commas, a
closing bracket.  The string literals are those of the Go encoder. -/
def jsonArrayOfStrings (l : List GoString) : GoString :=
  [0x5B] ++ List.intercalate [0x2C] (l.map json.appendString) ++ [0x5D]

/-- Modelled from the spec: the base64 half of `decodeBase64JSON`, which the
repository does not contain.  The value of a character of the standard
alphabet, `none` for any other byte. -/
def base64.decodeChar (c : Nat) : Option Nat :=
  let i := base64.encodeStd.indexOf c
  if i < 64 then some i else none

/-- Modelled from the spec: the base64 half of `decodeBase64JSON`: the bytes
that a text in the standard alphabet with padding stands for, `none` when the
text is not such a text. -/
def base64.DecodeString : GoString → Option GoString
  | [] => some []
  | [_] => none
  | [_, _] => none
  | [_, _, _] => none
  | a :: b :: c :: d :: rest =>
    if rest = [] ∧ d = base64.StdPadding then
      if c = base64.StdPadding then
        match base64.decodeChar a, base64.decodeChar b with
        | some x, some y => some [x * 4 + y / 16]
        | _, _ => none
      else
        match base64.decodeChar a, base64.decodeChar b, base64.decodeChar c with
        | some x, some y, some z => some [x * 4 + y / 16, y % 16 * 16 + z / 4]
        | _, _, _ => none
    else
      match base64.decodeChar a, base64.decodeChar b, base64.decodeChar c,
        base64.decodeChar d, base64.DecodeString rest with
      | some x, some y, some z, some w, some r =>
        some ([x * 4 + y / 16, y % 16 * 16 + z / 4, z % 4 * 64 + w] ++ r)
      | _, _, _, _, _ => none

/-- Modelled from the spec: the states of the reader `json.readLoop`. -/
inductive json.ReadState
  /-- Before the value. -/
  | value
  /-- Inside the literal `null`, `k` characters of it read. -/
  | null (k : Nat)
  /-- After the opening bracket. -/
  | elems
  /-- Inside a string literal. -/
  | inString
  /-- After a backslash inside a string literal. -/
  | escape
  /-- Inside a backslash-u escape, `k` hexadecimal digits to go, `v` read. -/
  | hexDigits (k : Nat) (v : Nat)
  /-- After a string literal. -/
  | afterString
  /-- After a comma. -/
  | afterComma
  /-- After the value. -/
  | finished
  deriving DecidableEq, Repr

/-- Modelled from the spec: JSON white space, which is space, tab, line feed and
carriage return. -/
def json.isSpace (b : Nat) : Bool := decide (b = 0x20 ∨ b = 0x09 ∨ b = 0x0A ∨ b = 0x0D)

/-- Modelled from the spec: the value of a hexadecimal digit of a JSON
escape. -/
def json.hexValue (c : Nat) : Option Nat :=
  if 0x30 ≤ c ∧ c ≤ 0x39 then some (c - 0x30)
  else if 0x61 ≤ c ∧ c ≤ 0x66 then some (c - 0x61 + 10)
  else if 0x41 ≤ c ∧ c ≤ 0x46 then some (c - 0x41 + 10)
  else none

/-- Modelled from the spec: the character a one-letter JSON escape stands
for. -/
def json.unescape (b : Nat) : Option Nat :=
  if b = 0x22 ∨ b = 0x5C ∨ b = 0x2F then some b
  else if b = 0x62 then some 0x08
  else if b = 0x66 then some 0x0C
  else if b = 0x6E then some 0x0A
  else if b = 0x72 then some 0x0D
  else if b = 0x74 then some 0x09
  else none

/-- Modelled from the spec: the JSON half of `decodeBase64JSON`, which the
repository does not contain: a reader of the JSON grammar (RFC 8259) for an
array of strings, one byte at a time.  `acc` holds the strings read, `cur` the
bytes of the string being read.  White space between the tokens is skipped,
the bytes of a string literal are taken as they are, a backslash-u escape
stands for the UTF-8 encoding of its code point.  The literal `null` is read
as the sequence without elements, as Go reads it into a `[]string`.  An escape
that names a UTF-16 surrogate is refused. -/
def json.readLoop : json.ReadState → List GoString → GoString → GoString →
    Option (List GoString)
  | st, acc, _, [] => if st = .finished then some acc else none
  | st, acc, cur, b :: rest =>
    match st with
    | .value =>
      if json.isSpace b then json.readLoop .value acc cur rest
      else if b = 0x5B then json.readLoop .elems acc cur rest
      else if b = 0x6E then json.readLoop (.null 1) acc cur rest
      else none
    | .null k =>
      if b = (str "null").getD k 0 then
        if k = 3 then json.readLoop .finished acc cur rest
        else json.readLoop (.null (k + 1)) acc cur rest
      else none
    | .elems =>
      if json.isSpace b then json.readLoop .elems acc cur rest
      else if b = 0x22 then json.readLoop .inString acc [] rest
      else if b = 0x5D then json.readLoop .finished acc cur rest
      else none
    | .inString =>
      if b = 0x22 then json.readLoop .afterString (acc ++ [cur]) [] rest
      else if b = 0x5C then json.readLoop .escape acc cur rest
      else if b < 0x20 then none
      else json.readLoop .inString acc (cur ++ [b]) rest
    | .escape =>
      if b = 0x75 then json.readLoop (.hexDigits 4 0) acc cur rest
      else
        match json.unescape b with
        | some c => json.readLoop .inString acc (cur ++ [c]) rest
        | none => none
    | .hexDigits k v =>
      match json.hexValue b with
      | none => none
      | some d =>
        let v' := v * 16 + d
        if k ≤ 1 then
          if 0xD800 ≤ v' ∧ v' ≤ 0xDFFF then none
          else json.readLoop .inString acc (cur ++ utf8.EncodeRune v') rest
        else json.readLoop (.hexDigits (k - 1) v') acc cur rest
    | .afterString =>
      if json.isSpace b then json.readLoop .afterString acc cur rest
      else if b = 0x2C then json.readLoop .afterComma acc cur rest
      else if b = 0x5D then json.readLoop .finished acc cur rest
      else none
    | .afterComma =>
      if json.isSpace b then json.readLoop .afterComma acc cur rest
      else if b = 0x22 then json.readLoop .inString acc [] rest
      else none
    | .finished =>
      if json.isSpace b then json.readLoop .finished acc cur rest else none

/-- Modelled from the spec: `decodeBase64JSON`, which the repository does not
contain: the text is decoded as base64 in the standard alphabet with padding
and the bytes are read as a JSON array of strings. -/
def decodeBase64JSON (s : GoString) : Option (List GoString) :=
  match base64.DecodeString s with
  | none => none
  | some j => json.readLoop .value [] [] j

/-! ## Notions used to state the claims -/

/-- Go: `errors.Is(err, target)` for a `target` declared with `errors.New`:
`err` wraps `target`. -/
def GoError.Is : GoError → Sentinel → Bool
  | .wrapString s _, t => decide (s = t)
  | .wrapInt s _, t => decide (s = t)
  | .context _ err, t => GoError.Is err t

/-- An entry of the `env` list that does not split into exactly two parts at
the character '='. -/
def badEnvEntry (e : GoString) : Bool := decide ((strings.Split e 0x3D).length ≠ 2)

/-- An element of the comma-separated argument of `SetArgEnvVariables` that,
with the surrounding spaces removed, does not split into exactly two parts at
the character ':'. -/
def badArgEnvElement (e : GoString) : Bool :=
  decide ((strings.Split (strings.Trim e (str " ")) 0x3A).length ≠ 2)

/-- The name and the value of an element `name:value`, in the words of the
specification: what stands before the colon and what stands after it, each
with the surrounding spaces removed. -/
def argEnvPair (e : GoString) : GoString × GoString :=
  let s := strings.Trim e (str " ")
  (strings.Trim (s.takeWhile (fun b => decide (b ≠ 0x3A))) (str " "),
    strings.Trim ((s.dropWhile (fun b => decide (b ≠ 0x3A))).drop 1) (str " "))

/-- A mapping from names to values as a function, and its update at one name. -/
def updateLookup (f : GoString → Option GoString) (p : GoString × GoString) :
    GoString → Option GoString :=
  fun k => if k = p.1 then some p.2 else f k

/-- A report on a named output channel: the line
`::set-output name=<name>::<value>` on standard output. -/
def setOutput (name value : GoString) : GoString :=
  str "::set-output name=" ++ name ++ str "::" ++ value ++ str "\n"

/-- The name and the value of an entry `NAME=VALUE` of the `env` list: what
stands before the character '=' and what stands after it. -/
def envPair (e : GoString) : GoString × GoString :=
  (e.takeWhile (fun b => decide (b ≠ 0x3D)), (e.dropWhile (fun b => decide (b ≠ 0x3D))).drop 1)

/-- The entries of an environment block that `os.Environ()` keeps, in the words
of its documentation and of the comment in `syscall.copyenv`: an entry is kept
when it is not empty and, if it is an entry `NAME=VALUE`, no entry `NAME=...`
stands before it; `pre` holds the entries before the ones of the list. -/
def keptAfter (pre : List GoString) : List GoString → List GoString
  | [] => []
  | s :: rest =>
    (if s ≠ [] ∧ (0x3D ∈ s → ∀ t ∈ pre, 0x3D ∈ t → (envPair t).1 ≠ (envPair s).1)
      then [s] else []) ++ keptAfter (pre ++ [s]) rest

/-- The value of the last pair of the list with the name `k`. -/
def lastValue (ps : List (GoString × GoString)) (k : GoString) : Option GoString :=
  (ps.reverse.find? (fun p => decide (p.1 = k))).map (fun p => p.2)

/-- The builder of the tests of the source: `NodeBuildNew("node compiler",
"npm", c)` for the package "foo-pkg" of version "1.2.3". -/
def testBuild : NodeBuild :=
  NodeBuildNew (str "node compiler") (str "npm") { Name := str "foo-pkg", Version := str "1.2.3" }

/-- The builder after a sequence of calls of `SetArgEnvVariables`, one for each
argument of the list in order, whether the calls return an error or not. -/
def setArgEnvCalls (b : NodeBuild) (raws : List GoString) : NodeBuild :=
  raws.foldl (fun b raw => (SetArgEnvVariables b raw).2) b

/-! ## A case analysis used in the proofs -/

/-- The outcome of decoding at a lead byte that is not ASCII: an error of one
byte, or a well-formed sequence of 2, 3 or 4 bytes. -/
inductive utf8.Decoded (s0 : Nat) (t : GoString) : Prop
  | bad (h : utf8.DecodeRuneInString (s0 :: t) = (utf8.RuneError, 1))
  | two (s1 : Nat) (t' : GoString) (ht : t = s1 :: t')
      (h0 : 0xC2 ≤ s0 ∧ s0 < 0xE0) (h1 : 0x80 ≤ s1 ∧ s1 ≤ 0xBF)
      (h : utf8.DecodeRuneInString (s0 :: t) = (s0 % 32 * 64 + s1 % 64, 2))
  | three (s1 s2 : Nat) (t' : GoString) (ht : t = s1 :: s2 :: t')
      (h0 : 0xE0 ≤ s0 ∧ s0 < 0xF0) (h1 : 0x80 ≤ s1 ∧ s1 ≤ 0xBF)
      (h1' : (s0 = 0xE0 → 0xA0 ≤ s1) ∧ (s0 = 0xED → s1 ≤ 0x9F))
      (h2 : 0x80 ≤ s2 ∧ s2 ≤ 0xBF)
      (h : utf8.DecodeRuneInString (s0 :: t) =
        (s0 % 16 * 4096 + s1 % 64 * 64 + s2 % 64, 3))
  | four (s1 s2 s3 : Nat) (t' : GoString) (ht : t = s1 :: s2 :: s3 :: t')
      (h0 : 0xF0 ≤ s0 ∧ s0 ≤ 0xF4) (h1 : 0x80 ≤ s1 ∧ s1 ≤ 0xBF)
      (h1' : (s0 = 0xF0 → 0x90 ≤ s1) ∧ (s0 = 0xF4 → s1 ≤ 0x8F))
      (h2 : 0x80 ≤ s2 ∧ s2 ≤ 0xBF) (h3 : 0x80 ≤ s3 ∧ s3 ≤ 0xBF)
      (h : utf8.DecodeRuneInString (s0 :: t) =
        (s0 % 8 * 262144 + s1 % 64 * 4096 + s2 % 64 * 64 + s3 % 64, 4))

/-! # Part II: lemmas and theorems -/

/-! ## Lemmas on `strings` -/

theorem strings.HasPrefix_iff (s pre : GoString) :
    strings.HasPrefix s pre = true ↔ ∃ t, s = pre ++ t := by
  unfold strings.HasPrefix
  simp only [Bool.and_eq_true, decide_eq_true_eq]
  constructor
  · rintro ⟨_, h⟩
    exact ⟨s.drop pre.length, by
      conv_lhs => rw [← List.take_append_drop pre.length s]
      rw [h]⟩
  · rintro ⟨t, rfl⟩
    simp

theorem strings.splitLoop_length (sep : Nat) (s : GoString) :
    ∀ cur : GoString, (strings.splitLoop sep cur s).length = s.count sep + 1 := by
  induction s with
  | nil => intro cur; simp [strings.splitLoop]
  | cons b rest ih =>
    intro cur
    rw [strings.splitLoop]
    by_cases h : b = sep
    · subst h
      simp [ih]
    · have h' : ¬ sep = b := fun e => h e.symm
      simp [h, h', ih, List.count_cons]

/-- The number of pieces is one more than the number of separators. -/
theorem strings.Split_length (s : GoString) (sep : Nat) :
    (strings.Split s sep).length = s.count sep + 1 :=
  strings.splitLoop_length sep s []

theorem strings.splitLoop_of_not_mem (sep : Nat) (s : GoString) :
    ∀ cur : GoString, sep ∉ s → strings.splitLoop sep cur s = [cur.reverse ++ s] := by
  induction s with
  | nil => intro cur _; simp [strings.splitLoop]
  | cons b rest ih =>
    intro cur hmem
    have hb : ¬ b = sep := fun e => hmem (by simp [e])
    have hr : sep ∉ rest := fun e => hmem (List.mem_cons_of_mem _ e)
    rw [strings.splitLoop, if_neg hb, ih _ hr]
    simp

theorem strings.splitLoop_cons (sep : Nat) (s : GoString) :
    ∀ cur : GoString, strings.splitLoop sep cur s =
      (cur.reverse ++ s.takeWhile (fun b => decide (b ≠ sep))) ::
        (match s.dropWhile (fun b => decide (b ≠ sep)) with
          | [] => []
          | _ :: rest => strings.splitLoop sep [] rest) := by
  induction s with
  | nil => intro cur; simp [strings.splitLoop]
  | cons b rest ih =>
    intro cur
    rw [strings.splitLoop]
    by_cases h : b = sep
    · subst h
      simp
    · rw [if_neg h, ih]
      simp [h]

/-- A string that splits into exactly two pieces splits into what stands
before its only separator and what stands after it. -/
theorem strings.Split_two (s : GoString) (sep : Nat)
    (h : (strings.Split s sep).length = 2) :
    strings.Split s sep = [s.takeWhile (fun b => decide (b ≠ sep)),
      (s.dropWhile (fun b => decide (b ≠ sep))).drop 1] := by
  unfold strings.Split at h ⊢
  rw [strings.splitLoop_cons] at h ⊢
  cases hd : s.dropWhile (fun b => decide (b ≠ sep)) with
  | nil => rw [hd] at h; simp at h
  | cons x rest =>
    rw [hd] at h
    simp only [List.length_cons, Nat.add_right_cancel_iff] at h
    rw [strings.splitLoop_length] at h
    have hmem : sep ∉ rest := by
      intro hm
      have := List.count_pos_iff.2 hm
      omega
    simp [strings.splitLoop_of_not_mem sep rest [] hmem]

/-! ## Lemmas on the maps -/

theorem StringMap.get_set (m : StringMap) (k v k' : GoString) :
    (m.set k v).get k' = if k' = k then some v else m.get k' := by
  induction m with
  | nil =>
    simp only [StringMap.set, StringMap.get]
    by_cases h : k' = k
    · simp [h]
    · have h' : ¬ k = k' := fun e => h e.symm
      simp [h, h']
  | cons p rest ih =>
    obtain ⟨a, b⟩ := p
    unfold StringMap.set
    by_cases h : a = k
    · subst h
      simp only [if_true, StringMap.get]
      by_cases h' : a = k'
      · simp [h']
      · have h'' : ¬ k' = a := fun e => h' e.symm
        simp [h', h'']
    · simp only [h, if_false, StringMap.get, ih]
      by_cases h' : a = k'
      · have h'' : ¬ k' = k := fun e => h (h'.trans e)
        simp [h', h'']
      · simp [h']

/-- Assigning the pairs of a list in order, seen through the lookups. -/
theorem StringMap.get_foldl_set (ps : List (GoString × GoString)) :
    ∀ m : StringMap, StringMap.get (ps.foldl (fun m p => m.set p.1 p.2) m) =
      ps.foldl updateLookup (StringMap.get m) := by
  induction ps with
  | nil => intro m; rfl
  | cons p ps ih =>
    intro m
    simp only [List.foldl_cons]
    rw [ih]
    congr 1
    funext k
    simp [updateLookup, StringMap.get_set]

/-! ## Lemmas on the allow lists -/

theorem rangeHasPrefix_iff (x : GoString) (ks : List GoString) :
    rangeHasPrefix x ks = true ↔ ∃ k ∈ ks, ∃ t, x = k ++ t := by
  induction ks with
  | nil => simp [rangeHasPrefix]
  | cons k ks ih =>
    unfold rangeHasPrefix
    by_cases h : strings.HasPrefix x k = true
    · simp only [h, if_true, true_iff]
      exact ⟨k, List.mem_cons_self _ _, (strings.HasPrefix_iff x k).1 h⟩
    · simp only [h, if_false, ih, List.mem_cons, exists_eq_or_imp, Bool.false_eq_true]
      rw [← strings.HasPrefix_iff]
      simp [h]

/-- The order in which a Go `range` visits the keys of a map is unspecified; the
result of the allow-list loop does not depend on it. -/
theorem rangeHasPrefix_perm (x : GoString) (ks ks' : List GoString)
    (h : ks.Perm ks') : rangeHasPrefix x ks = rangeHasPrefix x ks' := by
  rw [Bool.eq_iff_iff, rangeHasPrefix_iff, rangeHasPrefix_iff]
  constructor
  · rintro ⟨k, hk, ht⟩
    exact ⟨k, h.mem_iff.1 hk, ht⟩
  · rintro ⟨k, hk, ht⟩
    exact ⟨k, h.mem_iff.2 hk, ht⟩

/-! ## Lemmas on `setEnvs` and `SetArgEnvVariables` -/

/-- The loop of `setEnvs` stops at the first entry that does not split in two
and runs to its end when there is none. -/
theorem setEnvsLoop_find (l : List GoString) :
    ∀ m : StringMap,
      match l.find? badEnvEntry with
      | some x => setEnvsLoop m l = .error (.wrapString .errorInvalidEnvironmentVariable x)
      | none => ∃ m', setEnvsLoop m l = .ok m' := by
  induction l with
  | nil => intro m; exact ⟨m, rfl⟩
  | cons e rest ih =>
    intro m
    unfold setEnvsLoop
    by_cases h : (strings.Split e 0x3D).length ≠ 2
    · have hb : badEnvEntry e = true := by simp [badEnvEntry, h]
      simp [List.find?_cons, hb, h]
    · have hb : badEnvEntry e = false := by simp [badEnvEntry, h]
      simp only [List.find?_cons, hb, h, if_false]
      exact ih _

/-- The loop of `SetArgEnvVariables` stops at the first element that does not
split in two, with the pairs before it assigned, and assigns every pair when
there is none. -/
theorem setArgEnvLoop_find (l : List GoString) :
    ∀ m : StringMap,
      match l.find? badArgEnvElement with
      | some x => (setArgEnvLoop m l).1 =
          some (.wrapString .errorInvalidEnvArgument (strings.Trim x (str " ")))
      | none => setArgEnvLoop m l =
          (none, (l.map argEnvPair).foldl (fun m p => m.set p.1 p.2) m) := by
  induction l with
  | nil => intro m; rfl
  | cons e rest ih =>
    intro m
    unfold setArgEnvLoop
    by_cases h : (strings.Split (strings.Trim e (str " ")) 0x3A).length ≠ 2
    · have hb : badArgEnvElement e = true := by simp [badArgEnvElement, h]
      simp [List.find?_cons, hb, h]
    · have hb : badArgEnvElement e = false := by simp [badArgEnvElement, h]
      have h2 := strings.Split_two _ _ (not_not.1 h)
      simp only [List.find?_cons, hb, h, if_false]
      have hp : argEnvPair e = (strings.Trim ((strings.Split (strings.Trim e (str " ")) 0x3A).getD 0 [])
          (str " "), strings.Trim ((strings.Split (strings.Trim e (str " ")) 0x3A).getD 1 [])
          (str " ")) := by
        rw [h2]
        rfl
      have := ih (m.set (strings.Trim ((strings.Split (strings.Trim e (str " ")) 0x3A).getD 0 [])
          (str " ")) (strings.Trim ((strings.Split (strings.Trim e (str " ")) 0x3A).getD 1 [])
          (str " ")))
      cases hf : rest.find? badArgEnvElement with
      | some x => rw [hf] at this; exact this
      | none =>
        rw [hf] at this
        simp only [this, List.map_cons, List.foldl_cons, hp]

theorem setEnvs_error_iff (r : GoReleaserConfig) (cf : goReleaserConfigFile) (err : GoError) :
    setEnvs r cf = .error err ↔
      ∃ x, cf.Env.elems.find? badEnvEntry = some x ∧
        err = .wrapString .errorInvalidEnvironmentVariable x := by
  have h := setEnvsLoop_find cf.Env.elems []
  unfold setEnvs
  cases hf : cf.Env.elems.find? badEnvEntry with
  | some x =>
    rw [hf] at h
    simp only [h, Except.error.injEq, Option.some.injEq, exists_eq_left']
    exact eq_comm
  | none =>
    rw [hf] at h
    obtain ⟨m', hm⟩ := h
    simp only [hm]
    split <;> simp

theorem fromConfig_supported (cf : goReleaserConfigFile) (hv : cf.Version ∈ supportedVersions) :
    fromConfig cf = setEnvs
      { Goos := cf.Goos, Goarch := cf.Goarch, Env := none, Flags := cf.Flags,
        Ldflags := cf.Ldflags, Binary := cf.Binary } cf := by
  unfold fromConfig validateVersion
  simp only [hv, not_true_eq_false, if_false]
  cases setEnvs _ cf <;> rfl

theorem fromConfig_unsupported (cf : goReleaserConfigFile) (hv : cf.Version ∉ supportedVersions) :
    fromConfig cf = .error (.wrapInt .errorUnsupportedVersion cf.Version) := by
  unfold fromConfig validateVersion
  simp [hv]

theorem SetArgEnvVariables_error (b : NodeBuild) (raw : GoString) :
    (SetArgEnvVariables b raw).1 =
      if raw = [] then none
      else ((strings.Split raw 0x2C).find? badArgEnvElement).map
        (fun x => .wrapString .errorInvalidEnvArgument (strings.Trim x (str " "))) := by
  unfold SetArgEnvVariables
  by_cases h : raw = []
  · simp [h]
  · simp only [h, if_false]
    have := setArgEnvLoop_find (strings.Split raw 0x2C) b.argEnv
    cases hf : (strings.Split raw 0x2C).find? badArgEnvElement with
    | some x => rw [hf] at this; simpa using this
    | none => rw [hf] at this; simp [this]

/-! ## Lemmas on `unicode/utf8` -/

theorem and_mask (a k : Nat) : a &&& (2 ^ k - 1) = a % 2 ^ k := Nat.and_pow_two_sub_one_eq_mod a k

theorem shl_or (a b k : Nat) (h : b < 2 ^ k) : a <<< k ||| b = a * 2 ^ k + b := by
  rw [Nat.shiftLeft_eq, Nat.mul_comm]
  exact (Nat.mul_add_lt_is_or h a).symm

theorem or_low (a b k : Nat) (h : b < 2 ^ k) : (2 ^ k * a) ||| b = 2 ^ k * a + b :=
  (Nat.mul_add_lt_is_or h a).symm

theorem rune2_eq (a b : Nat) :
    (a &&& 0x1F) <<< 6 ||| (b &&& 0x3F) = a % 32 * 64 + b % 64 := by
  have h1 : a &&& 0x1F = a % 32 := and_mask a 5
  have h2 : b &&& 0x3F = b % 64 := and_mask b 6
  rw [h1, h2, shl_or (a % 32) (b % 64) 6 (by omega)]
  omega

theorem rune3_eq (a b c : Nat) :
    (a &&& 0x0F) <<< 12 ||| (b &&& 0x3F) <<< 6 ||| (c &&& 0x3F) =
      a % 16 * 4096 + b % 64 * 64 + c % 64 := by
  have h1 : a &&& 0x0F = a % 16 := and_mask a 4
  have h2 : b &&& 0x3F = b % 64 := and_mask b 6
  have h3 : c &&& 0x3F = c % 64 := and_mask c 6
  rw [h1, h2, h3]
  have hb : b % 64 < 64 := Nat.mod_lt _ (by norm_num)
  have hc : c % 64 < 64 := Nat.mod_lt _ (by norm_num)
  have e1 : (a % 16) <<< 12 ||| (b % 64) <<< 6 = 2 ^ 6 * (a % 16 * 64 + b % 64) := by
    rw [Nat.shiftLeft_eq (b % 64)]
    rw [shl_or (a % 16) (b % 64 * 2 ^ 6) 12 (by omega)]
    omega
  rw [e1, or_low _ (c % 64) 6 (by omega)]
  omega

theorem rune4_eq (a b c d : Nat) :
    (a &&& 0x07) <<< 18 ||| (b &&& 0x3F) <<< 12 ||| (c &&& 0x3F) <<< 6 ||| (d &&& 0x3F) =
      a % 8 * 262144 + b % 64 * 4096 + c % 64 * 64 + d % 64 := by
  have h1 : a &&& 0x07 = a % 8 := and_mask a 3
  have h2 : b &&& 0x3F = b % 64 := and_mask b 6
  have h3 : c &&& 0x3F = c % 64 := and_mask c 6
  have h4 : d &&& 0x3F = d % 64 := and_mask d 6
  rw [h1, h2, h3, h4]
  have hb : b % 64 < 64 := Nat.mod_lt _ (by norm_num)
  have hc : c % 64 < 64 := Nat.mod_lt _ (by norm_num)
  have hd : d % 64 < 64 := Nat.mod_lt _ (by norm_num)
  have e1 : (a % 8) <<< 18 ||| (b % 64) <<< 12 = 2 ^ 12 * (a % 8 * 64 + b % 64) := by
    rw [Nat.shiftLeft_eq (b % 64)]
    rw [shl_or (a % 8) (b % 64 * 2 ^ 12) 18 (by omega)]
    omega
  have e2 : 2 ^ 12 * (a % 8 * 64 + b % 64) ||| (c % 64) <<< 6 =
      2 ^ 6 * (a % 8 * 4096 + b % 64 * 64 + c % 64) := by
    rw [Nat.shiftLeft_eq (c % 64)]
    rw [or_low _ (c % 64 * 2 ^ 6) 12 (by omega)]
    omega
  rw [e1, e2, or_low _ (d % 64) 6 (by omega)]
  omega

theorem utf8.decoded_two (s0 : Nat) (t : GoString) (h0 : 0xC2 ≤ s0 ∧ s0 < 0xE0) :
    utf8.Decoded s0 t := by
  have e : utf8.DecodeRuneInString (s0 :: t) =
      if (s0 :: t).length < 2 then (utf8.RuneError, 1)
      else if (s0 :: t).getD 1 0 < 0x80 ∨ 0xBF < (s0 :: t).getD 1 0 then (utf8.RuneError, 1)
      else (s0 % 32 * 64 + (s0 :: t).getD 1 0 % 64, 2) := by
    have a1 : ¬ s0 < 0x80 := by omega
    have a2 : ¬ (s0 < 0xC2 ∨ 0xF4 < s0) := by omega
    have a3 : s0 < 0xE0 := h0.2
    have a4 : ¬ s0 = 0xE0 := by omega
    have a5 : ¬ s0 = 0xF0 := by omega
    have a6 : ¬ s0 = 0xED := by omega
    have a7 : ¬ s0 = 0xF4 := by omega
    simp only [utf8.DecodeRuneInString, utf8.RuneSelf, a1, a2, a3, a4, a5, a6, a7, if_true,
      if_false, Nat.le_refl, rune2_eq]
  rcases t with _ | ⟨s1, t'⟩
  · exact .bad (by rw [e]; simp)
  · by_cases h1 : s1 < 0x80 ∨ 0xBF < s1
    · exact .bad (by rw [e]; simp [h1])
    · refine .two s1 t' rfl h0 (by omega) ?_
      rw [e]
      simp [h1]

theorem utf8.decoded_three (s0 : Nat) (t : GoString) (h0 : 0xE0 ≤ s0 ∧ s0 < 0xF0) :
    utf8.Decoded s0 t := by
  have e : utf8.DecodeRuneInString (s0 :: t) =
      if (s0 :: t).length < 3 then (utf8.RuneError, 1)
      else if (s0 :: t).getD 1 0 < (if s0 = 0xE0 then 0xA0 else 0x80) ∨
          (if s0 = 0xED then 0x9F else 0xBF) < (s0 :: t).getD 1 0 then (utf8.RuneError, 1)
      else if (s0 :: t).getD 2 0 < 0x80 ∨ 0xBF < (s0 :: t).getD 2 0 then (utf8.RuneError, 1)
      else (s0 % 16 * 4096 + (s0 :: t).getD 1 0 % 64 * 64 + (s0 :: t).getD 2 0 % 64, 3) := by
    have a1 : ¬ s0 < 0x80 := by omega
    have a2 : ¬ (s0 < 0xC2 ∨ 0xF4 < s0) := by omega
    have a3 : ¬ s0 < 0xE0 := by omega
    have a4 : s0 < 0xF0 := h0.2
    have a5 : ¬ s0 = 0xF0 := by omega
    have a7 : ¬ s0 = 0xF4 := by omega
    have a8 : ¬ (3 ≤ 2) := by omega
    simp only [utf8.DecodeRuneInString, utf8.RuneSelf, a1, a2, a3, a4, a5, a7, a8, if_true,
      if_false, Nat.le_refl, rune3_eq]
  rcases t with _ | ⟨s1, _ | ⟨s2, t'⟩⟩
  · exact .bad (by rw [e]; simp)
  · exact .bad (by rw [e]; simp)
  · by_cases h1 : s1 < (if s0 = 0xE0 then 0xA0 else 0x80) ∨
        (if s0 = 0xED then 0x9F else 0xBF) < s1
    · exact .bad (by rw [e]; simp [h1])
    · by_cases h2 : s2 < 0x80 ∨ 0xBF < s2
      · exact .bad (by rw [e]; simp [h1, h2])
      · refine .three s1 s2 t' rfl h0 ?_ ?_ (by omega) ?_
        · split_ifs at h1 <;> omega
        · split_ifs at h1 <;> constructor <;> intros <;> omega
        · rw [e]
          simp [h1, h2]

theorem utf8.decoded_four (s0 : Nat) (t : GoString) (h0 : 0xF0 ≤ s0 ∧ s0 ≤ 0xF4) :
    utf8.Decoded s0 t := by
  have e : utf8.DecodeRuneInString (s0 :: t) =
      if (s0 :: t).length < 4 then (utf8.RuneError, 1)
      else if (s0 :: t).getD 1 0 < (if s0 = 0xF0 then 0x90 else 0x80) ∨
          (if s0 = 0xF4 then 0x8F else 0xBF) < (s0 :: t).getD 1 0 then (utf8.RuneError, 1)
      else if (s0 :: t).getD 2 0 < 0x80 ∨ 0xBF < (s0 :: t).getD 2 0 then (utf8.RuneError, 1)
      else if (s0 :: t).getD 3 0 < 0x80 ∨ 0xBF < (s0 :: t).getD 3 0 then (utf8.RuneError, 1)
      else (s0 % 8 * 262144 + (s0 :: t).getD 1 0 % 64 * 4096 + (s0 :: t).getD 2 0 % 64 * 64 +
        (s0 :: t).getD 3 0 % 64, 4) := by
    have a1 : ¬ s0 < 0x80 := by omega
    have a2 : ¬ (s0 < 0xC2 ∨ 0xF4 < s0) := by omega
    have a3 : ¬ s0 < 0xE0 := by omega
    have a4 : ¬ s0 < 0xF0 := by omega
    have a5 : ¬ s0 = 0xE0 := by omega
    have a6 : ¬ s0 = 0xED := by omega
    have a8 : ¬ (4 ≤ 2) := by omega
    have a9 : ¬ (4 ≤ 3) := by omega
    simp only [utf8.DecodeRuneInString, utf8.RuneSelf, a1, a2, a3, a4, a5, a6, a8, a9, if_true,
      if_false, Nat.le_refl, rune4_eq]
  rcases t with _ | ⟨s1, _ | ⟨s2, _ | ⟨s3, t'⟩⟩⟩
  · exact .bad (by rw [e]; simp)
  · exact .bad (by rw [e]; simp)
  · exact .bad (by rw [e]; simp)
  · by_cases h1 : s1 < (if s0 = 0xF0 then 0x90 else 0x80) ∨
        (if s0 = 0xF4 then 0x8F else 0xBF) < s1
    · exact .bad (by rw [e]; simp [h1])
    · by_cases h2 : s2 < 0x80 ∨ 0xBF < s2
      · exact .bad (by rw [e]; simp [h1, h2])
      · by_cases h3 : s3 < 0x80 ∨ 0xBF < s3
        · exact .bad (by rw [e]; simp [h1, h2, h3])
        · refine .four s1 s2 s3 t' rfl h0 ?_ ?_ (by omega) (by omega) ?_
          · split_ifs at h1 <;> omega
          · split_ifs at h1 <;> constructor <;> intros <;> omega
          · rw [e]
            simp [h1, h2, h3]

/-- Decoding at a byte that is not ASCII. -/
theorem utf8.decoded (s0 : Nat) (t : GoString) (h0 : ¬ s0 < 0x80) : utf8.Decoded s0 t := by
  by_cases h1 : s0 < 0xC2 ∨ 0xF4 < s0
  · refine .bad ?_
    have a1 : ¬ s0 < 0x80 := h0
    simp only [utf8.DecodeRuneInString, utf8.RuneSelf, a1, h1, if_true, if_false]
  · by_cases h2 : s0 < 0xE0
    · exact utf8.decoded_two s0 t (by omega)
    · by_cases h3 : s0 < 0xF0
      · exact utf8.decoded_three s0 t (by omega)
      · exact utf8.decoded_four s0 t (by omega)

/-! ## The reader on what the string encoder writes -/

theorem json.readLoop_plain (acc : List GoString) (cur rest : GoString) (b : Nat)
    (h1 : 0x20 ≤ b) (h2 : b ≠ 0x22) (h3 : b ≠ 0x5C) :
    json.readLoop .inString acc cur (b :: rest) =
      json.readLoop .inString acc (cur ++ [b]) rest := by
  have h1' : ¬ b < 0x20 := by omega
  simp only [json.readLoop, h2, h3, h1', if_false]

theorem json.readLoop_plain_list (acc : List GoString) (xs : GoString) :
    ∀ (cur tail : GoString), (∀ x ∈ xs, 0x80 ≤ x) →
      json.readLoop .inString acc cur (xs ++ tail) =
        json.readLoop .inString acc (cur ++ xs) tail := by
  induction xs with
  | nil => intro cur tail _; simp
  | cons x xs ih =>
    intro cur tail h
    have hx : 0x80 ≤ x := h x (List.mem_cons_self _ _)
    rw [List.cons_append, json.readLoop_plain acc cur _ x (by omega) (by omega) (by omega),
      ih _ _ (fun y hy => h y (List.mem_cons_of_mem _ hy))]
    simp

theorem json.readLoop_escapeByte (acc : List GoString) (cur tail : GoString) (b : Nat)
    (hb : b < 0x80) :
    json.readLoop .inString acc cur (json.escapeByte b ++ tail) =
      json.readLoop .inString acc (cur ++ [b]) tail := by
  interval_cases b <;> rfl

theorem json.readLoop_u2028 (acc : List GoString) (cur tail : GoString) :
    json.readLoop .inString acc cur (str "\\u202" ++ [json.hex (0x2028 &&& 0xF)] ++ tail) =
      json.readLoop .inString acc (cur ++ [0xE2, 0x80, 0xA8]) tail := rfl

theorem json.readLoop_u2029 (acc : List GoString) (cur tail : GoString) :
    json.readLoop .inString acc cur (str "\\u202" ++ [json.hex (0x2029 &&& 0xF)] ++ tail) =
      json.readLoop .inString acc (cur ++ [0xE2, 0x80, 0xA9]) tail := rfl

theorem json.appendStringLoop_ascii (fuel b : Nat) (rest : GoString) (hb : b < 0x80) :
    json.appendStringLoop (fuel + 1) (b :: rest) =
      (if json.htmlSafeSet b then [b] else json.escapeByte b) ++
        json.appendStringLoop fuel rest := by
  have hb' : b < utf8.RuneSelf := hb
  rw [json.appendStringLoop]
  simp only [hb', if_true]
  split <;> simp

theorem json.appendStringLoop_multi (fuel b : Nat) (rest : GoString) (hb : ¬ b < 0x80) :
    json.appendStringLoop (fuel + 1) (b :: rest) =
      if (utf8.DecodeRuneInString (b :: rest)).1 = utf8.RuneError ∧
          (utf8.DecodeRuneInString (b :: rest)).2 = 1 then
        str "\\ufffd" ++ json.appendStringLoop fuel
          ((b :: rest).drop (utf8.DecodeRuneInString (b :: rest)).2)
      else if (utf8.DecodeRuneInString (b :: rest)).1 = 0x2028 ∨
          (utf8.DecodeRuneInString (b :: rest)).1 = 0x2029 then
        str "\\u202" ++ [json.hex ((utf8.DecodeRuneInString (b :: rest)).1 &&& 0xF)] ++
          json.appendStringLoop fuel ((b :: rest).drop (utf8.DecodeRuneInString (b :: rest)).2)
      else (b :: rest).take (utf8.DecodeRuneInString (b :: rest)).2 ++
        json.appendStringLoop fuel ((b :: rest).drop (utf8.DecodeRuneInString (b :: rest)).2) := by
  have hb' : ¬ b < utf8.RuneSelf := hb
  rw [json.appendStringLoop]
  simp only [hb', if_false]

theorem utf8.DecodeRuneInString_ascii (b : Nat) (rest : GoString) (hb : b < 0x80) :
    utf8.DecodeRuneInString (b :: rest) = (b, 1) := by
  have hb' : b < utf8.RuneSelf := hb
  simp only [utf8.DecodeRuneInString, hb', if_true]

theorem utf8.validLoop_cons (fuel b : Nat) (rest : GoString) :
    utf8.validLoop (fuel + 1) (b :: rest) =
      if (utf8.DecodeRuneInString (b :: rest)).1 = utf8.RuneError ∧
          (utf8.DecodeRuneInString (b :: rest)).2 = 1 then false
      else utf8.validLoop fuel ((b :: rest).drop (utf8.DecodeRuneInString (b :: rest)).2) := by
  rw [utf8.validLoop]

/-- The reader, inside a string literal, reads what the string encoder writes
for a valid UTF-8 string as that string. -/
theorem json.readLoop_appendStringLoop (fuel : Nat) :
    ∀ s : GoString, s.length ≤ fuel → utf8.validLoop fuel s = true →
      ∀ (acc : List GoString) (cur tail : GoString),
        json.readLoop .inString acc cur (json.appendStringLoop fuel s ++ tail) =
          json.readLoop .inString acc (cur ++ s) tail := by
  induction fuel with
  | zero =>
    intro s hlen _ acc cur tail
    have : s = [] := List.length_eq_zero.1 (Nat.le_zero.1 hlen)
    subst this
    simp [json.appendStringLoop]
  | succ fuel ih =>
    intro s hlen hv acc cur tail
    rcases s with _ | ⟨b, rest⟩
    · simp [json.appendStringLoop]
    · have hlen' : rest.length ≤ fuel := by simpa using hlen
      rw [utf8.validLoop_cons] at hv
      by_cases hb : b < 0x80
      · rw [utf8.DecodeRuneInString_ascii b rest hb] at hv
        have hne : ¬ b = utf8.RuneError := by
          simp only [utf8.RuneError]; omega
        simp only [hne, false_and, if_false, List.drop_succ_cons, List.drop_zero] at hv
        rw [json.appendStringLoop_ascii fuel b rest hb]
        cases hs : json.htmlSafeSet b with
        | true =>
          have hs' := hs
          simp only [json.htmlSafeSet, decide_eq_true_eq] at hs'
          simp only [if_true, List.cons_append, List.nil_append]
          rw [json.readLoop_plain acc cur _ b hs'.1 hs'.2.2.1 hs'.2.2.2.2.2.2,
            ih rest hlen' hv]
          simp
        | false =>
          simp only [Bool.false_eq_true, if_false, List.append_assoc]
          rw [json.readLoop_escapeByte acc cur _ b hb, ih rest hlen' hv]
          simp
      · rw [json.appendStringLoop_multi fuel b rest hb]
        rcases utf8.decoded b rest hb with h | ⟨s1, t', ht, h0, h1, h⟩ |
          ⟨s1, s2, t', ht, h0, h1, h1', h2, h⟩ | ⟨s1, s2, s3, t', ht, h0, h1, h1', h2, h3, h⟩
        · rw [h] at hv
          simp at hv
        · subst ht
          rw [h] at hv ⊢
          have e1 : ¬ (b % 32 * 64 + s1 % 64 = utf8.RuneError ∧ (2 : Nat) = 1) := by omega
          have e2 : ¬ (b % 32 * 64 + s1 % 64 = 0x2028 ∨ b % 32 * 64 + s1 % 64 = 0x2029) := by
            omega
          simp only [e1, e2, if_false, List.drop_succ_cons, List.drop_zero, List.take_succ_cons,
            List.take_zero] at hv ⊢
          have hl : t'.length ≤ fuel := by simp at hlen'; omega
          rw [List.append_assoc, json.readLoop_plain_list acc [b, s1] cur _ (by
            intro x hx
            simp only [List.mem_cons, List.mem_singleton, List.not_mem_nil, or_false] at hx
            rcases hx with rfl | rfl <;> omega), ih t' hl hv]
          simp
        · subst ht
          rw [h] at hv ⊢
          have e1 : ¬ (b % 16 * 4096 + s1 % 64 * 64 + s2 % 64 = utf8.RuneError ∧
              (3 : Nat) = 1) := by omega
          simp only [e1, if_false, List.drop_succ_cons, List.drop_zero, List.take_succ_cons,
            List.take_zero] at hv ⊢
          have hl : t'.length ≤ fuel := by simp at hlen'; omega
          by_cases e2 : b % 16 * 4096 + s1 % 64 * 64 + s2 % 64 = 0x2028
          · have hb2 : b = 0xE2 := by omega
            have hs1 : s1 = 0x80 := by omega
            have hs2 : s2 = 0xA8 := by omega
            subst hb2 hs1 hs2
            simp only [e2, true_or, if_true]
            rw [List.append_assoc, json.readLoop_u2028, ih t' hl hv]
            simp
          · by_cases e3 : b % 16 * 4096 + s1 % 64 * 64 + s2 % 64 = 0x2029
            · have hb2 : b = 0xE2 := by omega
              have hs1 : s1 = 0x80 := by omega
              have hs2 : s2 = 0xA9 := by omega
              subst hb2 hs1 hs2
              simp only [e3, or_true, if_true]
              rw [List.append_assoc, json.readLoop_u2029, ih t' hl hv]
              simp
            · simp only [e2, e3, or_self, if_false]
              rw [List.append_assoc, json.readLoop_plain_list acc [b, s1, s2] cur _ (by
                intro x hx
                simp only [List.mem_cons, List.mem_singleton, List.not_mem_nil, or_false] at hx
                rcases hx with rfl | rfl | rfl <;> omega), ih t' hl hv]
              simp
        · subst ht
          rw [h] at hv ⊢
          have e1 : ¬ (b % 8 * 262144 + s1 % 64 * 4096 + s2 % 64 * 64 + s3 % 64 =
              utf8.RuneError ∧ (4 : Nat) = 1) := by omega
          have e2 : ¬ (b % 8 * 262144 + s1 % 64 * 4096 + s2 % 64 * 64 + s3 % 64 = 0x2028 ∨
              b % 8 * 262144 + s1 % 64 * 4096 + s2 % 64 * 64 + s3 % 64 = 0x2029) := by
            rcases Nat.lt_or_ge 0xF0 b with hb4 | hb4
            · omega
            · have : b = 0xF0 := by omega
              have := h1'.1 this
              omega
          simp only [e1, e2, if_false, List.drop_succ_cons, List.drop_zero, List.take_succ_cons,
            List.take_zero] at hv ⊢
          have hl : t'.length ≤ fuel := by simp at hlen'; omega
          rw [List.append_assoc, json.readLoop_plain_list acc [b, s1, s2, s3] cur _ (by
            intro x hx
            simp only [List.mem_cons, List.mem_singleton, List.not_mem_nil, or_false] at hx
            rcases hx with rfl | rfl | rfl | rfl <;> omega), ih t' hl hv]
          simp

/-! ## The bytes the string encoder writes, and its fuel -/

theorem utf8.DecodeRuneInString_size (b : Nat) (rest : GoString) :
    1 ≤ (utf8.DecodeRuneInString (b :: rest)).2 ∧
      (utf8.DecodeRuneInString (b :: rest)).2 ≤ (b :: rest).length := by
  by_cases hb : b < 0x80
  · rw [utf8.DecodeRuneInString_ascii b rest hb]
    simp
  · rcases utf8.decoded b rest hb with h | ⟨s1, t', ht, h0, h1, h⟩ |
      ⟨s1, s2, t', ht, h0, h1, h1', h2, h⟩ | ⟨s1, s2, s3, t', ht, h0, h1, h1', h2, h3, h⟩
    · rw [h]; simp
    · subst ht; rw [h]; simp
    · subst ht; rw [h]; simp
    · subst ht; rw [h]; simp

theorem utf8.drop_size_length (b : Nat) (rest : GoString) :
    ((b :: rest).drop (utf8.DecodeRuneInString (b :: rest)).2).length ≤ rest.length := by
  have := utf8.DecodeRuneInString_size b rest
  simp only [List.length_drop, List.length_cons] at this ⊢
  omega

/-- The string encoder has fuel enough: more fuel than the length of the string
changes nothing. -/
theorem json.appendStringLoop_fuel (fuel : Nat) :
    ∀ (fuel' : Nat) (s : GoString), s.length ≤ fuel → s.length ≤ fuel' →
      json.appendStringLoop fuel s = json.appendStringLoop fuel' s := by
  induction fuel with
  | zero =>
    intro fuel' s h _
    have : s = [] := List.length_eq_zero.1 (Nat.le_zero.1 h)
    subst this
    cases fuel' <;> simp [json.appendStringLoop]
  | succ fuel ih =>
    intro fuel' s h h'
    rcases s with _ | ⟨b, rest⟩
    · cases fuel' <;> simp [json.appendStringLoop]
    · rcases fuel' with _ | fuel'
      · simp at h'
      · have hl : rest.length ≤ fuel := by simpa using h
        have hl' : rest.length ≤ fuel' := by simpa using h'
        by_cases hb : b < 0x80
        · rw [json.appendStringLoop_ascii fuel b rest hb,
            json.appendStringLoop_ascii fuel' b rest hb, ih fuel' rest hl hl']
        · have hd := utf8.drop_size_length b rest
          rw [json.appendStringLoop_multi fuel b rest hb,
            json.appendStringLoop_multi fuel' b rest hb,
            ih fuel' _ (le_trans hd hl) (le_trans hd hl')]

/-- The validity loop has fuel enough. -/
theorem utf8.validLoop_fuel (fuel : Nat) :
    ∀ (fuel' : Nat) (s : GoString), s.length ≤ fuel → s.length ≤ fuel' →
      utf8.validLoop fuel s = utf8.validLoop fuel' s := by
  induction fuel with
  | zero =>
    intro fuel' s h _
    have : s = [] := List.length_eq_zero.1 (Nat.le_zero.1 h)
    subst this
    cases fuel' <;> simp [utf8.validLoop]
  | succ fuel ih =>
    intro fuel' s h h'
    rcases s with _ | ⟨b, rest⟩
    · cases fuel' <;> simp [utf8.validLoop]
    · rcases fuel' with _ | fuel'
      · simp at h'
      · have hl : rest.length ≤ fuel := by simpa using h
        have hl' : rest.length ≤ fuel' := by simpa using h'
        have hd := utf8.drop_size_length b rest
        rw [utf8.validLoop_cons, utf8.validLoop_cons,
          ih fuel' _ (le_trans hd hl) (le_trans hd hl')]

theorem json.escapeByte_lt (b : Nat) (hb : b < 0x80) : ∀ x ∈ json.escapeByte b, x < 256 := by
  interval_cases b <;> decide

/-- Whatever the string, the string encoder writes bytes. -/
theorem json.appendStringLoop_lt (fuel : Nat) :
    ∀ s : GoString, ∀ x ∈ json.appendStringLoop fuel s, x < 256 := by
  induction fuel with
  | zero => intro s x hx; simp [json.appendStringLoop] at hx
  | succ fuel ih =>
    intro s x hx
    rcases s with _ | ⟨b, rest⟩
    · simp [json.appendStringLoop] at hx
    · by_cases hb : b < 0x80
      · rw [json.appendStringLoop_ascii fuel b rest hb, List.mem_append] at hx
        rcases hx with hx | hx
        · split at hx
          · simp only [List.mem_singleton] at hx
            omega
          · exact json.escapeByte_lt b hb x hx
        · exact ih rest x hx
      · rw [json.appendStringLoop_multi fuel b rest hb] at hx
        rcases utf8.decoded b rest hb with h | ⟨s1, t', ht, h0, h1, h⟩ |
          ⟨s1, s2, t', ht, h0, h1, h1', h2, h⟩ | ⟨s1, s2, s3, t', ht, h0, h1, h1', h2, h3, h⟩
        · rw [h] at hx
          simp only [and_self, if_true, List.mem_append] at hx
          rcases hx with hx | hx
          · revert x; decide
          · exact ih _ x hx
        · subst ht
          rw [h] at hx
          have e1 : ¬ (b % 32 * 64 + s1 % 64 = utf8.RuneError ∧ (2 : Nat) = 1) := by omega
          have e2 : ¬ (b % 32 * 64 + s1 % 64 = 0x2028 ∨ b % 32 * 64 + s1 % 64 = 0x2029) := by
            omega
          simp only [e1, e2, if_false, List.drop_succ_cons, List.drop_zero, List.take_succ_cons,
            List.take_zero, List.mem_append, List.mem_cons, List.not_mem_nil, or_false] at hx
          rcases hx with (rfl | rfl) | hx
          · omega
          · omega
          · exact ih _ x hx
        · subst ht
          rw [h] at hx
          have e1 : ¬ (b % 16 * 4096 + s1 % 64 * 64 + s2 % 64 = utf8.RuneError ∧
              (3 : Nat) = 1) := by omega
          simp only [e1, if_false, List.drop_succ_cons, List.drop_zero, List.take_succ_cons,
            List.take_zero] at hx
          split at hx
          · rename_i hc
            simp only [List.mem_append] at hx
            rcases hx with (hx | hx) | hx
            · revert x; decide
            · rcases hc with hc | hc <;> rw [hc] at hx <;> revert x <;> decide
            · exact ih _ x hx
          · simp only [List.mem_append, List.mem_cons, List.not_mem_nil, or_false] at hx
            rcases hx with (rfl | rfl | rfl) | hx
            · omega
            · omega
            · omega
            · exact ih _ x hx
        · subst ht
          rw [h] at hx
          have e1 : ¬ (b % 8 * 262144 + s1 % 64 * 4096 + s2 % 64 * 64 + s3 % 64 =
              utf8.RuneError ∧ (4 : Nat) = 1) := by omega
          have e2 : ¬ (b % 8 * 262144 + s1 % 64 * 4096 + s2 % 64 * 64 + s3 % 64 = 0x2028 ∨
              b % 8 * 262144 + s1 % 64 * 4096 + s2 % 64 * 64 + s3 % 64 = 0x2029) := by
            rcases Nat.lt_or_ge 0xF0 b with hb4 | hb4
            · omega
            · have : b = 0xF0 := by omega
              have := h1'.1 this
              omega
          simp only [e1, e2, if_false, List.drop_succ_cons, List.drop_zero, List.take_succ_cons,
            List.take_zero, List.mem_append, List.mem_cons, List.not_mem_nil, or_false] at hx
          rcases hx with (rfl | rfl | rfl | rfl) | hx
          · omega
          · omega
          · omega
          · omega
          · exact ih _ x hx

theorem json.appendString_lt (s : GoString) : ∀ x ∈ json.appendString s, x < 256 := by
  intro x hx
  simp only [json.appendString, List.mem_append, List.mem_singleton] at hx
  rcases hx with (rfl | hx) | rfl
  · omega
  · exact json.appendStringLoop_lt _ s x hx
  · omega

theorem json.encodeElems_lt (l : List GoString) :
    ∀ first : Bool, ∀ x ∈ json.encodeElems first l, x < 256 := by
  induction l with
  | nil => intro first x hx; simp [json.encodeElems] at hx
  | cons s rest ih =>
    intro first x hx
    simp only [json.encodeElems, List.mem_append] at hx
    rcases hx with (hx | hx) | hx
    · split at hx
      · simp at hx
      · simp only [List.mem_singleton] at hx
        omega
    · exact json.appendString_lt s x hx
    · exact ih false x hx

/-! ## The reader on what the array encoder writes -/

theorem json.readLoop_appendString (s : GoString) (hv : utf8.ValidString s = true)
    (acc : List GoString) (cur tail : GoString) :
    json.readLoop .inString acc cur (json.appendStringLoop s.length s ++ [0x22] ++ tail) =
      json.readLoop .afterString (acc ++ [cur ++ s]) [] tail := by
  rw [List.append_assoc, json.readLoop_appendStringLoop s.length s (le_refl _) hv]
  rfl

theorem json.readLoop_encodeElems (l : List GoString) :
    (∀ s ∈ l, utf8.ValidString s = true) → ∀ (acc : List GoString) (cur : GoString),
      json.readLoop .afterString acc cur (json.encodeElems false l ++ [0x5D]) =
        some (acc ++ l) := by
  induction l with
  | nil => intro _ acc cur; simp [json.encodeElems]; rfl
  | cons s rest ih =>
    intro hv acc cur
    have h1 : json.encodeElems false (s :: rest) ++ [0x5D] =
        0x2C :: 0x22 :: (json.appendStringLoop s.length s ++ [0x22] ++
          (json.encodeElems false rest ++ [0x5D])) := by
      simp [json.encodeElems, json.appendString]
    have h2 : ∀ t : GoString, json.readLoop .afterString acc cur (0x2C :: 0x22 :: t) =
        json.readLoop .inString acc [] t := fun _ => rfl
    rw [h1, h2, json.readLoop_appendString s (hv s (List.mem_cons_self _ _)),
      ih (fun x hx => hv x (List.mem_cons_of_mem _ hx))]
    simp

/-- The reader reads what `json.Marshal` writes for a slice of valid UTF-8
strings as the elements of the slice. -/
theorem json.readLoop_Marshal (v : StringSlice) (hv : ∀ s ∈ v.elems, utf8.ValidString s = true) :
    ∃ j, json.Marshal v = .ok j ∧ json.readLoop .value [] [] j = some v.elems := by
  rcases v with _ | l
  · exact ⟨_, rfl, by decide⟩
  · refine ⟨_, rfl, ?_⟩
    rcases l with _ | ⟨s, rest⟩
    · decide
    · have h1 : [0x5B] ++ json.encodeElems true (s :: rest) ++ [0x5D] =
          0x5B :: 0x22 :: (json.appendStringLoop s.length s ++ [0x22] ++
            (json.encodeElems false rest ++ [0x5D])) := by
        simp [json.encodeElems, json.appendString]
      have h2 : ∀ t : GoString, json.readLoop .value [] [] (0x5B :: 0x22 :: t) =
          json.readLoop .inString [] [] t := fun _ => rfl
      rw [h1, h2, json.readLoop_appendString s (hv s (List.mem_cons_self _ _)),
        json.readLoop_encodeElems rest (fun x hx => hv x (List.mem_cons_of_mem _ hx))]
      simp [StringSlice.elems]

/-! ## Base64 -/

theorem base64.decodeChar_encode : ∀ i, i < 64 →
    base64.decodeChar (base64.encode i) = some i := by decide

theorem base64.encode_ne_padding : ∀ i, i < 64 → base64.encode i ≠ base64.StdPadding := by
  decide

theorem base64.encode_mem : ∀ i, i < 64 → base64.encode i ∈ base64.encodeStd := by decide

theorem base64.sextet_lt (v : Nat) : v &&& 0x3F < 64 := by
  have : v &&& 0x3F = v % 64 := and_mask v 6
  omega

theorem base64.EncodeToString_one (a : Nat) :
    base64.EncodeToString [a] =
      [base64.encode (a * 65536 / 262144 % 64), base64.encode (a * 65536 / 4096 % 64),
        base64.StdPadding, base64.StdPadding] := by
  have e1 : ∀ v : Nat, v >>> 18 &&& 0x3F = v / 262144 % 64 := fun v => by
    rw [Nat.shiftRight_eq_div_pow]; exact and_mask _ 6
  have e2 : ∀ v : Nat, v >>> 12 &&& 0x3F = v / 4096 % 64 := fun v => by
    rw [Nat.shiftRight_eq_div_pow]; exact and_mask _ 6
  have e : a <<< 16 = a * 65536 := Nat.shiftLeft_eq a 16
  simp only [base64.EncodeToString, e1, e2, e]

theorem base64.EncodeToString_two (a b : Nat) (hb : b < 256) :
    base64.EncodeToString [a, b] =
      [base64.encode ((a * 65536 + b * 256) / 262144 % 64),
        base64.encode ((a * 65536 + b * 256) / 4096 % 64),
        base64.encode ((a * 65536 + b * 256) / 64 % 64), base64.StdPadding] := by
  have e1 : ∀ v : Nat, v >>> 18 &&& 0x3F = v / 262144 % 64 := fun v => by
    rw [Nat.shiftRight_eq_div_pow]; exact and_mask _ 6
  have e2 : ∀ v : Nat, v >>> 12 &&& 0x3F = v / 4096 % 64 := fun v => by
    rw [Nat.shiftRight_eq_div_pow]; exact and_mask _ 6
  have e3 : ∀ v : Nat, v >>> 6 &&& 0x3F = v / 64 % 64 := fun v => by
    rw [Nat.shiftRight_eq_div_pow]; exact and_mask _ 6
  have e : a <<< 16 ||| b <<< 8 = a * 65536 + b * 256 := by
    rw [Nat.shiftLeft_eq b 8, shl_or a (b * 2 ^ 8) 16 (by omega)]
    omega
  simp only [base64.EncodeToString, e1, e2, e3, e]

theorem base64.EncodeToString_three (a b c : Nat) (rest : GoString) (hb : b < 256)
    (hc : c < 256) :
    base64.EncodeToString (a :: b :: c :: rest) =
      [base64.encode ((a * 65536 + b * 256 + c) / 262144 % 64),
        base64.encode ((a * 65536 + b * 256 + c) / 4096 % 64),
        base64.encode ((a * 65536 + b * 256 + c) / 64 % 64),
        base64.encode ((a * 65536 + b * 256 + c) % 64)] ++ base64.EncodeToString rest := by
  have e1 : ∀ v : Nat, v >>> 18 &&& 0x3F = v / 262144 % 64 := fun v => by
    rw [Nat.shiftRight_eq_div_pow]; exact and_mask _ 6
  have e2 : ∀ v : Nat, v >>> 12 &&& 0x3F = v / 4096 % 64 := fun v => by
    rw [Nat.shiftRight_eq_div_pow]; exact and_mask _ 6
  have e3 : ∀ v : Nat, v >>> 6 &&& 0x3F = v / 64 % 64 := fun v => by
    rw [Nat.shiftRight_eq_div_pow]; exact and_mask _ 6
  have e4 : ∀ v : Nat, v &&& 0x3F = v % 64 := fun v => and_mask _ 6
  have e : a <<< 16 ||| b <<< 8 ||| c = a * 65536 + b * 256 + c := by
    rw [Nat.shiftLeft_eq b 8, shl_or a (b * 2 ^ 8) 16 (by omega)]
    have : a * 2 ^ 16 + b * 2 ^ 8 = 2 ^ 8 * (a * 256 + b) := by omega
    rw [this, or_low _ c 8 (by omega)]
    omega
  rw [base64.EncodeToString]
  simp only [e1, e2, e3, e4, e]

/-- Decoding undoes encoding, on bytes. -/
theorem base64.DecodeString_EncodeToString (n : Nat) :
    ∀ bs : GoString, bs.length ≤ n → (∀ b ∈ bs, b < 256) →
      base64.DecodeString (base64.EncodeToString bs) = some bs := by
  induction n using Nat.strong_induction_on with
  | _ n ih =>
    intro bs hn hlt
    rcases bs with _ | ⟨a, _ | ⟨b, _ | ⟨c, rest⟩⟩⟩
    · rfl
    · have ha : a < 256 := hlt a (by simp)
      rw [base64.EncodeToString_one]
      simp only [base64.DecodeString, true_and, if_true,
        base64.decodeChar_encode _ (Nat.mod_lt _ (by norm_num : 64 > 0))]
      congr 2
      omega
    · have ha : a < 256 := hlt a (by simp)
      have hb : b < 256 := hlt b (by simp)
      rw [base64.EncodeToString_two a b hb]
      have hne := base64.encode_ne_padding _
        (Nat.mod_lt ((a * 65536 + b * 256) / 64) (by norm_num : 64 > 0))
      simp only [base64.DecodeString, true_and, if_true, hne, if_false,
        base64.decodeChar_encode _ (Nat.mod_lt _ (by norm_num : 64 > 0))]
      congr 2
      · omega
      · congr 1
        omega
    · have ha : a < 256 := hlt a (by simp)
      have hb : b < 256 := hlt b (by simp)
      have hc : c < 256 := hlt c (by simp)
      rw [base64.EncodeToString_three a b c rest hb hc]
      have hne := base64.encode_ne_padding _
        (Nat.mod_lt (a * 65536 + b * 256 + c) (by norm_num : 64 > 0))
      have hrec := ih rest.length (by simp at hn; omega) rest (le_refl _)
        (fun x hx => hlt x (by simp [hx]))
      simp only [List.cons_append, List.nil_append]
      rw [base64.DecodeString]
      simp only [hne, and_false, if_false,
        base64.decodeChar_encode _ (Nat.mod_lt _ (by norm_num : 64 > 0)), hrec]
      have hx : ∀ x y z : Nat, x = a → y = b → z = c →
          some ([x, y, z] ++ rest) = some (a :: b :: c :: rest) := by
        intro x y z hx hy hz
        subst hx hy hz
        rfl
      exact hx _ _ _ (by omega) (by omega) (by omega)

/-- The text `EncodeToString` writes is padded to a multiple of four characters
and holds characters of the standard alphabet and the padding character
only. -/
theorem base64.EncodeToString_shape (n : Nat) :
    ∀ bs : GoString, bs.length ≤ n →
      (base64.EncodeToString bs).length = 4 * ((bs.length + 2) / 3) ∧
      ∀ x ∈ base64.EncodeToString bs, x ∈ base64.encodeStd ∨ x = base64.StdPadding := by
  induction n using Nat.strong_induction_on with
  | _ n ih =>
    intro bs hn
    rcases bs with _ | ⟨a, _ | ⟨b, _ | ⟨c, rest⟩⟩⟩
    · simp [base64.EncodeToString]
    · refine ⟨by simp [base64.EncodeToString], ?_⟩
      intro x hx
      simp only [base64.EncodeToString, List.mem_cons, List.mem_singleton, List.not_mem_nil,
        or_false] at hx
      rcases hx with rfl | rfl | rfl | rfl
      · exact Or.inl (base64.encode_mem _ (base64.sextet_lt _))
      · exact Or.inl (base64.encode_mem _ (base64.sextet_lt _))
      · exact Or.inr rfl
      · exact Or.inr rfl
    · refine ⟨by simp [base64.EncodeToString], ?_⟩
      intro x hx
      simp only [base64.EncodeToString, List.mem_cons, List.mem_singleton, List.not_mem_nil,
        or_false] at hx
      rcases hx with rfl | rfl | rfl | rfl
      · exact Or.inl (base64.encode_mem _ (base64.sextet_lt _))
      · exact Or.inl (base64.encode_mem _ (base64.sextet_lt _))
      · exact Or.inl (base64.encode_mem _ (base64.sextet_lt _))
      · exact Or.inr rfl
    · have hrec := ih rest.length (by simp at hn; omega) rest (le_refl _)
      rw [base64.EncodeToString]
      refine ⟨?_, ?_⟩
      · simp only [List.length_append, List.length_cons, List.length_nil, hrec.1]
        omega
      · intro x hx
        simp only [List.mem_append, List.mem_cons, List.mem_singleton, List.not_mem_nil,
          or_false] at hx
        rcases hx with (rfl | rfl | rfl | rfl) | hx
        · exact Or.inl (base64.encode_mem _ (base64.sextet_lt _))
        · exact Or.inl (base64.encode_mem _ (base64.sextet_lt _))
        · exact Or.inl (base64.encode_mem _ (base64.sextet_lt _))
        · exact Or.inl (base64.encode_mem _ (base64.sextet_lt _))
        · exact hrec.2 x hx

/-! ## The array encoder and the array text of the specification -/

theorem json.encodeElems_false_cons (s : GoString) (rest : List GoString) :
    json.encodeElems false (s :: rest) = [0x2C] ++ json.encodeElems true (s :: rest) := by
  simp [json.encodeElems]

theorem json.encodeElems_true (l : List GoString) :
    json.encodeElems true l = List.intercalate [0x2C] (l.map json.appendString) := by
  induction l with
  | nil => rfl
  | cons s rest ih =>
    rcases rest with _ | ⟨s', rest'⟩
    · simp [json.encodeElems, List.intercalate]
    · have h : json.encodeElems true (s :: s' :: rest') =
          json.appendString s ++ json.encodeElems false (s' :: rest') := by
        simp [json.encodeElems]
      rw [h, json.encodeElems_false_cons, ih]
      simp [List.intercalate, List.intersperse]

theorem json.Marshal_some (l : List GoString) :
    json.Marshal (some l) = .ok (jsonArrayOfStrings l) := by
  simp only [json.Marshal, jsonArrayOfStrings, json.encodeElems_true]

theorem json.Marshal_lt (v : StringSlice) (j : GoString) (h : json.Marshal v = .ok j) :
    ∀ x ∈ j, x < 256 := by
  rcases v with _ | l
  · simp only [json.Marshal, Except.ok.injEq] at h
    subst h
    decide
  · simp only [json.Marshal, Except.ok.injEq] at h
    subst h
    intro x hx
    simp only [List.mem_append, List.mem_singleton] at hx
    rcases hx with (rfl | hx) | rfl
    · omega
    · exact json.encodeElems_lt l true x hx
    · omega

/-! ## Claims C1 to C4 -/

/-- C1: `isAllowedEnvVariable s` is true exactly when `s` starts, at position 0
and byte for byte, with a registered prefix, that is with "NODE_";
"NODE_SOMETHING" is allowed, "BLA", "random" and "LD_PRELOAD" are not, and
neither is a lower-case or shifted "NODE_". -/
theorem C1_isAllowedEnvVariable_iff (s : GoString) :
    (isAllowedEnvVariable s = true ↔ ∃ k ∈ allowedEnvVariablePrefix, ∃ t, s = k ++ t) ∧
    (isAllowedEnvVariable s = true ↔ ∃ t, s = str "NODE_" ++ t) ∧
    isAllowedEnvVariable (str "NODE_SOMETHING") = true ∧
    isAllowedEnvVariable (str "BLA") = false ∧
    isAllowedEnvVariable (str "random") = false ∧
    isAllowedEnvVariable (str "LD_PRELOAD") = false ∧
    isAllowedEnvVariable (str "node_something") = false ∧
    isAllowedEnvVariable (str " NODE_SOMETHING") = false := by
  refine ⟨rangeHasPrefix_iff s _, ?_, by decide, by decide, by decide, by decide,
    by decide, by decide⟩
  unfold isAllowedEnvVariable
  rw [rangeHasPrefix_iff]
  simp [allowedEnvVariablePrefix]

/-- C2: `isAllowedArg s` is true exactly when `s` starts with one of the
registered argument prefixes "--workspace" and "--include-workspace-root". -/
theorem C2_isAllowedArg_iff (s : GoString) :
    (isAllowedArg s = true ↔ ∃ k ∈ allowedBuildArgs, ∃ t, s = k ++ t) ∧
    (isAllowedArg s = true ↔
      (∃ t, s = str "--workspace" ++ t) ∨ (∃ t, s = str "--include-workspace-root" ++ t)) := by
  refine ⟨rangeHasPrefix_iff s _, ?_⟩
  unfold isAllowedArg
  rw [rangeHasPrefix_iff]
  simp [allowedBuildArgs]

/-- C3: the argument allow list is anchored at position 0: a registered prefix
followed by any suffix (the empty one included) is allowed, and a registered
prefix preceded by a space or by "bla" is not. -/
theorem C3_isAllowedArg_anchored (k : GoString) (hk : k ∈ allowedBuildArgs) :
    (∀ t : GoString, isAllowedArg (k ++ t) = true) ∧
    isAllowedArg k = true ∧
    isAllowedArg (k ++ str "bla") = true ∧
    isAllowedArg (str " " ++ k) = false ∧
    isAllowedArg (str "bla" ++ k) = false := by
  have hpre : ∀ t : GoString, isAllowedArg (k ++ t) = true := fun t =>
    (rangeHasPrefix_iff _ _).2 ⟨k, hk, t, rfl⟩
  refine ⟨hpre, by simpa using hpre [], hpre _, ?_, ?_⟩
  · simp only [allowedBuildArgs, List.mem_cons, List.mem_singleton, List.not_mem_nil,
      or_false] at hk
    rcases hk with rfl | rfl <;> decide
  · simp only [allowedBuildArgs, List.mem_cons, List.mem_singleton, List.not_mem_nil,
      or_false] at hk
    rcases hk with rfl | rfl <;> decide

/-- C3 at the prefix "--workspace". -/
theorem C3_isAllowedArg_anchored_witness :
    str "--workspace" ∈ allowedBuildArgs ∧
    ((∀ t : GoString, isAllowedArg (str "--workspace" ++ t) = true) ∧
    isAllowedArg (str "--workspace") = true ∧
    isAllowedArg (str "--workspace" ++ str "bla") = true ∧
    isAllowedArg (str " " ++ str "--workspace") = false ∧
    isAllowedArg (str "bla" ++ str "--workspace") = false) :=
  ⟨by decide, C3_isAllowedArg_anchored (str "--workspace") (by decide)⟩

/-- C4: for every package descriptor, whatever its name and version (empty
ones included), `pkgJSONFromConfig` succeeds and `generateOutputFilename` on a
builder made from its result succeeds with the name, "-", the version and
".tgz"; the name "foo-pkg" and the version "1.2.3" give "foo-pkg-1.2.3.tgz". -/
theorem C4_generateOutputFilename (cf : pkgJsonConfigFile) (node npm : GoString) :
    (∃ c, pkgJSONFromConfig cf = .ok c ∧
      generateOutputFilename (NodeBuildNew node npm c) =
        .ok (cf.Name ++ str "-" ++ cf.Version ++ str ".tgz")) ∧
    (∃ c, pkgJSONFromConfig { Name := str "foo-pkg", Version := str "1.2.3" } = .ok c ∧
      generateOutputFilename (NodeBuildNew (str "node compiler") (str "npm") c) =
        .ok (str "foo-pkg-1.2.3.tgz")) ∧
    (∃ c, pkgJSONFromConfig { Name := [], Version := [] } = .ok c ∧
      generateOutputFilename (NodeBuildNew node npm c) = .ok (str "-.tgz")) :=
  ⟨⟨_, rfl, rfl⟩, ⟨_, rfl, by decide⟩, ⟨_, rfl, rfl⟩⟩

/-- A string of ASCII bytes is valid UTF-8. -/
theorem utf8.ValidString_of_ascii (s : GoString) (h : ∀ b ∈ s, b < 0x80) :
    utf8.ValidString s = true := by
  have key : ∀ (s : GoString) (fuel : Nat), s.length ≤ fuel → (∀ b ∈ s, b < 0x80) →
      utf8.validLoop fuel s = true := by
    intro s
    induction s with
    | nil => intro fuel _ _; cases fuel <;> simp [utf8.validLoop]
    | cons b rest ih =>
      intro fuel hl hb
      rcases fuel with _ | fuel
      · simp at hl
      · have hb0 : b < 0x80 := hb b (List.mem_cons_self _ _)
        have hne : ¬ b = utf8.RuneError := by simp only [utf8.RuneError]; omega
        rw [utf8.validLoop_cons, utf8.DecodeRuneInString_ascii b rest hb0]
        simp only [hne, false_and, if_false, List.drop_succ_cons, List.drop_zero]
        exact ih fuel (by simpa using hl) (fun x hx => hb x (List.mem_cons_of_mem _ hx))
  exact key s s.length (le_refl _) h

/-! ## Claims C5 and C6 -/

/-- C5, as the code has it: for every slice that is not nil, `marshallList`
succeeds and returns the base64 text of the JSON array of the strings: a text in
the standard alphabet, padded with '=' to a multiple of four characters, that
decodes to the array text; for the nil slice it succeeds and returns the base64
text of the JSON literal `null`.  The two vectors of `Test_marshallList` are
reproduced. -/
theorem C5_marshallList_encoding (l : List GoString) :
    marshallList (some l) = .ok (base64.EncodeToString (jsonArrayOfStrings l)) ∧
    (base64.EncodeToString (jsonArrayOfStrings l)).length % 4 = 0 ∧
    (∀ x ∈ base64.EncodeToString (jsonArrayOfStrings l),
      x ∈ base64.encodeStd ∨ x = base64.StdPadding) ∧
    base64.DecodeString (base64.EncodeToString (jsonArrayOfStrings l)) =
      some (jsonArrayOfStrings l) ∧
    marshallList none = .ok (base64.EncodeToString (str "null")) ∧
    marshallList (some [str "--arg"]) = .ok (str "WyItLWFyZyJd") ∧
    marshallList (some [str "/usr/lib/google-golang/bin/go", str "build", str "-mod=vendor",
      str "-trimpath", str "-tags=netgo",
      str "-ldflags=-X main.gitVersion=v1.2.3 -X main.gitSomething=somthg"]) =
      .ok (str ("WyIvdXNyL2xpYi9nb29nbGUtZ29sYW5nL2Jpbi9nbyIsImJ1aWxkIiwiLW1vZD12ZW5kb3IiLCIt" ++
        "dHJpbXBhdGgiLCItdGFncz1uZXRnbyIsIi1sZGZsYWdzPS1YIG1haW4uZ2l0VmVyc2lvbj12MS4yLjMg" ++
        "LVggbWFpbi5naXRTb21ldGhpbmc9c29tdGhnIl0=")) := by
  have hshape := base64.EncodeToString_shape _ (jsonArrayOfStrings l) (le_refl _)
  have hlt : ∀ x ∈ jsonArrayOfStrings l, x < 256 :=
    json.Marshal_lt (some l) _ (json.Marshal_some l)
  refine ⟨?_, ?_, hshape.2, ?_, by decide, by decide, ?_⟩
  · simp only [marshallList, json.Marshal_some]
  · rw [hshape.1]
    omega
  · exact base64.DecodeString_EncodeToString _ _ (le_refl _) hlt
  · set_option maxRecDepth 100000 in decide

/-- C5, the claim as stated fails at the nil slice: `marshallList` returns
"bnVsbA==", the base64 text of `null`, which is not the text of the array
without elements. -/
theorem C5_marshallList_nil_counterexample :
    marshallList none = .ok (str "bnVsbA==") ∧
    base64.DecodeString (str "bnVsbA==") = some (str "null") ∧
    marshallList none ≠
      .ok (base64.EncodeToString (jsonArrayOfStrings (StringSlice.elems none))) := by
  decide

/-- C6, as the code has it: for every slice, nil or not, whose strings are valid
UTF-8, `marshallList` succeeds, and decoding its result as base64 and reading
the bytes as a JSON array of strings gives exactly the elements of the
slice. -/
theorem C6_marshallList_roundtrip (args : StringSlice)
    (hv : ∀ s ∈ args.elems, utf8.ValidString s = true) :
    ∃ out, marshallList args = .ok out ∧ decodeBase64JSON out = some args.elems := by
  obtain ⟨j, hj, hread⟩ := json.readLoop_Marshal args hv
  refine ⟨base64.EncodeToString j, by simp only [marshallList, hj], ?_⟩
  simp only [decodeBase64JSON,
    base64.DecodeString_EncodeToString _ j (le_refl _) (json.Marshal_lt args j hj), hread]

/-- C6 on the empty slice and on a slice of strings that hold '=', a space,
double quotes, a backslash, a line feed, angle brackets, an ampersand and the
line separator U+2028. -/
theorem C6_marshallList_roundtrip_witness :
    (∃ out, marshallList (some []) = .ok out ∧ decodeBase64JSON out = some []) ∧
    (∃ out, marshallList (some [str "a=b", str "x y", str "say \"hi\"", [],
        str "\\ \n <&>", [0xE2, 0x80, 0xA8, 0xC3, 0xA9]]) = .ok out ∧
      decodeBase64JSON out = some [str "a=b", str "x y", str "say \"hi\"", [],
        str "\\ \n <&>", [0xE2, 0x80, 0xA8, 0xC3, 0xA9]]) :=
  ⟨C6_marshallList_roundtrip (some []) (by decide),
    C6_marshallList_roundtrip (some [str "a=b", str "x y", str "say \"hi\"", [],
      str "\\ \n <&>", [0xE2, 0x80, 0xA8, 0xC3, 0xA9]]) (by decide)⟩

/-- C6, the claim as stated fails at the one string that is the byte FF, which
is not valid UTF-8: the encoder writes the escape of U+FFFD for it, so the text
reads back as the three bytes EF BF BD, and the string of the byte FE gives the
same text, so that no reader can give both strings back. -/
theorem C6_marshallList_roundtrip_counterexample :
    marshallList (some [[0xFF]]) = .ok (str "WyJcdWZmZmQiXQ==") ∧
    base64.DecodeString (str "WyJcdWZmZmQiXQ==") = some (str "[\"\\ufffd\"]") ∧
    decodeBase64JSON (str "WyJcdWZmZmQiXQ==") = some [[0xEF, 0xBF, 0xBD]] ∧
    decodeBase64JSON (str "WyJcdWZmZmQiXQ==") ≠ some [[0xFF]] ∧
    marshallList (some [[0xFE]]) = marshallList (some [[0xFF]]) := by
  decide

/-! ## Claims C7 to C10 -/

/-- C7: `fromConfig` fails with an error that wraps `errorUnsupportedVersion`
exactly when the version of the configuration is not in the supported set,
which holds exactly the number 1; the error then carries that version,
whatever the other fields are; a configuration of version 2 with a malformed
env entry fails with the error for 2. -/
theorem C7_fromConfig_unsupportedVersion (cf : goReleaserConfigFile) :
    ((∃ e, fromConfig cf = .error e ∧ e.Is .errorUnsupportedVersion = true) ↔
      cf.Version ∉ supportedVersions) ∧
    (cf.Version ∉ supportedVersions ↔ cf.Version ≠ 1) ∧
    (fromConfig cf = .error (.wrapInt .errorUnsupportedVersion cf.Version) ↔
      cf.Version ≠ 1) ∧
    fromConfig { cf with Version := 2 } = .error (.wrapInt .errorUnsupportedVersion 2) ∧
    fromConfig
      { Goos := [], Goarch := [], Env := some [str "A=B=C"], Flags := none,
        Ldflags := none, Binary := [], Version := 2 } =
        .error (.wrapInt .errorUnsupportedVersion 2) := by
  have hsup : cf.Version ∉ supportedVersions ↔ cf.Version ≠ 1 := by
    simp [supportedVersions]
  refine ⟨?_, hsup, ?_, ?_, by decide⟩
  · constructor
    · rintro ⟨e, he, hIs⟩
      intro hv
      rw [fromConfig_supported cf hv, setEnvs_error_iff] at he
      obtain ⟨x, _, rfl⟩ := he
      simp [GoError.Is] at hIs
    · intro hv
      exact ⟨_, fromConfig_unsupported cf hv, by simp [GoError.Is]⟩
  · rw [← hsup]
    constructor
    · intro he hv
      rw [fromConfig_supported cf hv, setEnvs_error_iff] at he
      obtain ⟨x, _, hx⟩ := he
      cases hx
    · exact fromConfig_unsupported cf
  · exact fromConfig_unsupported _ (by simp [supportedVersions])

/-- C8: for a configuration with a supported version, `fromConfig` fails with
an error that wraps `errorInvalidEnvironmentVariable` exactly when some env
entry does not split into exactly two parts at '=', that is when it does not
hold exactly one '='; the error carries the first such entry in list order,
and without such an entry `fromConfig` succeeds; an entry "A=B=C" makes it
fail. -/
theorem C8_fromConfig_invalidEnv (cf : goReleaserConfigFile)
    (hv : cf.Version ∈ supportedVersions) :
    ((∃ e, fromConfig cf = .error e ∧ e.Is .errorInvalidEnvironmentVariable = true) ↔
      ∃ x ∈ cf.Env.elems, (strings.Split x 0x3D).length ≠ 2) ∧
    ((∃ x ∈ cf.Env.elems, (strings.Split x 0x3D).length ≠ 2) ↔
      ∃ x ∈ cf.Env.elems, x.count 0x3D ≠ 1) ∧
    (∀ x, cf.Env.elems.find? badEnvEntry = some x →
      fromConfig cf = .error (.wrapString .errorInvalidEnvironmentVariable x)) ∧
    (cf.Env.elems.find? badEnvEntry = none → ∃ cfg, fromConfig cf = .ok cfg) ∧
    (str "A=B=C" ∈ cf.Env.elems → ∃ e, fromConfig cf = .error e) := by
  have hfind : ∀ x, cf.Env.elems.find? badEnvEntry = some x →
      fromConfig cf = .error (.wrapString .errorInvalidEnvironmentVariable x) := by
    intro x hx
    rw [fromConfig_supported cf hv, setEnvs_error_iff]
    exact ⟨x, hx, rfl⟩
  have hex : (∃ x ∈ cf.Env.elems, (strings.Split x 0x3D).length ≠ 2) →
      ∃ x, cf.Env.elems.find? badEnvEntry = some x := by
    rintro ⟨x, hx, hbad⟩
    cases hf : cf.Env.elems.find? badEnvEntry with
    | some y => exact ⟨y, rfl⟩
    | none =>
      have := List.find?_eq_none.1 hf x hx
      simp [badEnvEntry, hbad] at this
  refine ⟨?_, ?_, hfind, ?_, ?_⟩
  · constructor
    · rintro ⟨e, he, _⟩
      rw [fromConfig_supported cf hv, setEnvs_error_iff] at he
      obtain ⟨x, hx, _⟩ := he
      refine ⟨x, List.mem_of_find?_eq_some hx, ?_⟩
      have := List.find?_some hx
      simpa [badEnvEntry] using this
    · intro h
      obtain ⟨x, hx⟩ := hex h
      exact ⟨_, hfind x hx, by simp [GoError.Is]⟩
  · simp only [strings.Split_length]
    constructor <;> rintro ⟨x, hx, h⟩ <;> exact ⟨x, hx, by omega⟩
  · intro hnone
    have h := setEnvsLoop_find cf.Env.elems []
    rw [hnone] at h
    obtain ⟨m', hm⟩ := h
    rw [fromConfig_supported cf hv]
    unfold setEnvs
    simp only [hm]
    split <;> exact ⟨_, rfl⟩
  · intro hmem
    obtain ⟨x, hx⟩ := hex ⟨_, hmem, by decide⟩
    exact ⟨_, hfind x hx⟩

/-- C8 at the configuration of version 1 whose env list is "A=B=C". -/
theorem C8_fromConfig_invalidEnv_witness :
    fromConfig
      { Goos := [], Goarch := [], Env := some [str "A=B=C"], Flags := none,
        Ldflags := none, Binary := [], Version := 1 } =
        .error (.wrapString .errorInvalidEnvironmentVariable (str "A=B=C")) :=
  (C8_fromConfig_invalidEnv
    { Goos := [], Goarch := [], Env := some [str "A=B=C"], Flags := none,
      Ldflags := none, Binary := [], Version := 1 } (by decide)).2.2.1
    (str "A=B=C") (by decide)

/-- C9: `SetArgEnvVariables raw` fails with an error that wraps
`errorInvalidEnvArgument` exactly when `raw` is not empty and some
comma-separated element of `raw`, with its surrounding spaces removed, does not
split into exactly two parts at ':'; it returns no error otherwise; the error
carries the first such element, trimmed.  "VAR1=value1", "VAR1:value1,",
"VAR1:value1,, VAR3:value3" and "VAR1:value1:" fail; the empty string,
"VAR1:value1" and "VAR1:value1,VAR2:value2" succeed. -/
theorem C9_SetArgEnvVariables_error_iff (b : NodeBuild) (raw : GoString) :
    ((∃ e, (SetArgEnvVariables b raw).1 = some e ∧ e.Is .errorInvalidEnvArgument = true) ↔
      raw ≠ [] ∧ ∃ x ∈ strings.Split raw 0x2C,
        (strings.Split (strings.Trim x (str " ")) 0x3A).length ≠ 2) ∧
    ((SetArgEnvVariables b raw).1 = none ↔
      ¬ (raw ≠ [] ∧ ∃ x ∈ strings.Split raw 0x2C,
        (strings.Split (strings.Trim x (str " ")) 0x3A).length ≠ 2)) ∧
    (SetArgEnvVariables b (str "VAR1=value1")).1 =
      some (.wrapString .errorInvalidEnvArgument (str "VAR1=value1")) ∧
    (SetArgEnvVariables b (str "VAR1:value1,")).1 =
      some (.wrapString .errorInvalidEnvArgument []) ∧
    (SetArgEnvVariables b (str "VAR1:value1,, VAR3:value3")).1 =
      some (.wrapString .errorInvalidEnvArgument []) ∧
    (SetArgEnvVariables b (str "VAR1:value1:")).1 =
      some (.wrapString .errorInvalidEnvArgument (str "VAR1:value1:")) ∧
    (SetArgEnvVariables b []).1 = none ∧
    (SetArgEnvVariables b (str "VAR1:value1")).1 = none ∧
    (SetArgEnvVariables b (str "VAR1:value1,VAR2:value2")).1 = none := by
  have hfind : (∃ x ∈ strings.Split raw 0x2C,
      (strings.Split (strings.Trim x (str " ")) 0x3A).length ≠ 2) ↔
      ∃ y, (strings.Split raw 0x2C).find? badArgEnvElement = some y := by
    constructor
    · rintro ⟨x, hx, hbad⟩
      cases hf : (strings.Split raw 0x2C).find? badArgEnvElement with
      | some y => exact ⟨y, rfl⟩
      | none =>
        have := List.find?_eq_none.1 hf x hx
        simp [badArgEnvElement, hbad] at this
    · rintro ⟨y, hy⟩
      refine ⟨y, List.mem_of_find?_eq_some hy, ?_⟩
      have := List.find?_some hy
      simpa [badArgEnvElement] using this
  refine ⟨?_, ?_, ?_, ?_, ?_, ?_, ?_, ?_, ?_⟩
  · rw [SetArgEnvVariables_error, hfind]
    by_cases h : raw = []
    · simp [h]
    · simp only [h, if_false, ne_eq, not_false_eq_true, true_and]
      constructor
      · rintro ⟨e, he, _⟩
        cases hf : (strings.Split raw 0x2C).find? badArgEnvElement with
        | some y => exact ⟨y, rfl⟩
        | none => rw [hf] at he; simp at he
      · rintro ⟨y, hy⟩
        exact ⟨_, by rw [hy]; rfl, by simp [GoError.Is]⟩
  · rw [SetArgEnvVariables_error, hfind]
    by_cases h : raw = []
    · simp [h]
    · simp only [h, if_false, ne_eq, not_false_eq_true, true_and]
      cases hf : (strings.Split raw 0x2C).find? badArgEnvElement with
      | some y => simp
      | none => simp
  all_goals (rw [SetArgEnvVariables_error]; decide)

theorem marshallList_some (l : List GoString) :
    marshallList (some l) = .ok (base64.EncodeToString (jsonArrayOfStrings l)) := by
  simp only [marshallList, json.Marshal_some]

theorem marshallList_none : marshallList none = .ok (str "bnVsbA==") := by decide

/-- The text `marshallList` returns has a multiple of four characters. -/
theorem marshallList_length (args : StringSlice) (v : GoString)
    (h : marshallList args = .ok v) : v.length % 4 = 0 := by
  rcases args with _ | l
  · rw [marshallList_none] at h
    cases h
    decide
  · rw [marshallList_some] at h
    cases h
    rw [(base64.EncodeToString_shape _ (jsonArrayOfStrings l) (le_refl _)).1]
    omega

/-- The text `marshallList` returns for a slice that is not nil is not the text
it returns for the nil slice. -/
theorem marshallList_some_ne_null (l : List GoString) :
    marshallList (some l) ≠ .ok (str "bnVsbA==") := by
  intro h
  rw [marshallList_some] at h
  have hd := base64.DecodeString_EncodeToString _ (jsonArrayOfStrings l) (le_refl _)
    (json.Marshal_lt (some l) _ (json.Marshal_some l))
  have he : base64.EncodeToString (jsonArrayOfStrings l) = str "bnVsbA==" := by
    injection h
  rw [he] at hd
  have hn : base64.DecodeString (str "bnVsbA==") = some (str "null") := by decide
  rw [hn] at hd
  have h0 : (jsonArrayOfStrings l).head? = (str "null").head? := by
    injection hd with hd
    rw [hd]
  simp [jsonArrayOfStrings] at h0
  revert h0
  decide

theorem appendSlice_some (l : List GoString) (t : StringSlice) :
    appendSlice (some l) t = some (l ++ t.elems) := by
  unfold appendSlice
  split
  · rename_i h _
    cases h
  · rfl

/-- A dry run: the three lines written and the nil error. -/
theorem Run_dry (b : NodeBuild) (environ : List GoString) :
    Run b true environ =
      { stdout := [setOutput (str "node-package-name")
            (b.pkgJson.Name ++ str "-" ++ b.pkgJson.Version ++ str ".tgz"),
          setOutput (str "node-command")
            (base64.EncodeToString (jsonArrayOfStrings [b.node, b.npm, str "pack"])),
          setOutput (str "node-env") (str "bnVsbA==")],
        outcome := .returned none } := by
  simp only [Run, generateFlags, generateEnvVariables, generateEnvVariablesFrom,
    generateCommandEnvVariables,
    generateOutputFilename, marshallList, json.Marshal, appendSlice, StringSlice.elems]
  rfl

/-- A run that is not dry: the two lines written and the call of
`syscall.Exec`. -/
theorem Run_exec (b : NodeBuild) (environ : List GoString) :
    Run b false environ =
      { stdout := [fmt.Println (str "command") (some [b.node, b.npm, str "pack"]),
          fmt.Println (str "env") (some environ)],
        outcome := .exec b.node (some [b.node, b.npm, str "pack"]) (some environ) } := by
  simp [Run, generateFlags, generateEnvVariables, generateEnvVariablesFrom,
    generateCommandEnvVariables, appendSlice,
    StringSlice.elems]

/-! ## Further lemmas on `SetArgEnvVariables` and `setEnvs` -/

/-- Whether the loop of `SetArgEnvVariables` ends with an error or not, it
leaves in the map the pairs of the elements before the first one that does not
split in two. -/
theorem setArgEnvLoop_map (l : List GoString) :
    ∀ m : StringMap, (setArgEnvLoop m l).2 =
      ((l.takeWhile (fun e => !badArgEnvElement e)).map argEnvPair).foldl
        (fun m p => m.set p.1 p.2) m := by
  induction l with
  | nil => intro m; rfl
  | cons e rest ih =>
    intro m
    rw [setArgEnvLoop]
    by_cases h : (strings.Split (strings.Trim e (str " ")) 0x3A).length ≠ 2
    · have hb : badArgEnvElement e = true := by simp [badArgEnvElement, h]
      simp [List.takeWhile_cons, hb, h]
    · have hb : badArgEnvElement e = false := by simp [badArgEnvElement, h]
      have h2 := strings.Split_two _ _ (not_not.1 h)
      have hp : argEnvPair e = (strings.Trim ((strings.Split (strings.Trim e (str " ")) 0x3A).getD 0 [])
          (str " "), strings.Trim ((strings.Split (strings.Trim e (str " ")) 0x3A).getD 1 [])
          (str " ")) := by
        rw [h2]
        rfl
      simp only [h, if_false, List.takeWhile_cons, hb, Bool.not_false, if_true, List.map_cons,
        List.foldl_cons, hp]
      exact ih _

/-- The loop of `setEnvs` on entries that all split in two assigns the pair of
each entry in order. -/
theorem setEnvsLoop_ok (l : List GoString) :
    ∀ m : StringMap, (∀ e ∈ l, (strings.Split e 0x3D).length = 2) →
      setEnvsLoop m l = .ok ((l.map envPair).foldl (fun m p => m.set p.1 p.2) m) := by
  induction l with
  | nil => intro m _; rfl
  | cons e rest ih =>
    intro m hgood
    have he : (strings.Split e 0x3D).length = 2 := hgood e (List.mem_cons_self _ _)
    have h2 := strings.Split_two _ _ he
    have hp : envPair e = ((strings.Split e 0x3D).getD 0 [], (strings.Split e 0x3D).getD 1 []) := by
      rw [h2]
      rfl
    rw [setEnvsLoop]
    simp only [he, ne_eq, not_true_eq_false, if_false, List.map_cons, List.foldl_cons, hp]
    exact ih _ (fun x hx => hgood x (List.mem_cons_of_mem _ hx))

theorem StringMap.set_ne_nil (m : StringMap) (k v : GoString) : m.set k v ≠ [] := by
  cases m with
  | nil => simp [StringMap.set]
  | cons p rest =>
    obtain ⟨a, b⟩ := p
    unfold StringMap.set
    split <;> simp

theorem StringMap.foldl_set_ne_nil (ps : List (GoString × GoString)) :
    ∀ m : StringMap, (m ≠ [] ∨ ps ≠ []) →
      ps.foldl (fun m p => m.set p.1 p.2) m ≠ [] := by
  induction ps with
  | nil => intro m h; simpa using h
  | cons p ps ih =>
    intro m _
    exact ih _ (Or.inl (StringMap.set_ne_nil m p.1 p.2))

theorem lastValue_cons (p : GoString × GoString) (ps : List (GoString × GoString))
    (k : GoString) :
    lastValue (p :: ps) k =
      match lastValue ps k with
      | some v => some v
      | none => if p.1 = k then some p.2 else none := by
  simp only [lastValue, List.reverse_cons, List.find?_append]
  cases h : ps.reverse.find? (fun p => decide (p.1 = k)) with
  | some q => simp
  | none =>
    by_cases hk : p.1 = k
    · simp [hk]
    · simp [hk]

/-- Updating a lookup with the pairs of a list in order gives, at each name, the
value of the last pair with that name, or else what the lookup held. -/
theorem foldl_updateLookup (ps : List (GoString × GoString)) :
    ∀ (f : GoString → Option GoString) (k : GoString),
      ps.foldl updateLookup f k =
        match lastValue ps k with
        | some v => some v
        | none => f k := by
  induction ps with
  | nil => intro f k; rfl
  | cons p ps ih =>
    intro f k
    rw [List.foldl_cons, ih, lastValue_cons]
    cases h : lastValue ps k with
    | some v => rfl
    | none =>
      by_cases hk : p.1 = k
      · subst hk
        simp [updateLookup]
      · have hk' : ¬ k = p.1 := fun e => hk e.symm
        simp [updateLookup, hk, hk']

theorem lastValue_isSome (ps : List (GoString × GoString)) (k : GoString) :
    (lastValue ps k).isSome = true ↔ ∃ p ∈ ps, p.1 = k := by
  simp only [lastValue, Option.isSome_map', List.find?_isSome, List.mem_reverse,
    decide_eq_true_eq]

/-! ## Claims C11 to C15 -/

/-- C11, the code at the input "VAR1:value1," on a fresh builder: the call
returns the error for the empty second element and leaves VAR1 with value1 in
`argEnv`, which was empty before the call.  In general the call leaves in
`argEnv` the pairs of the elements before the first malformed one. -/
theorem C11_SetArgEnvVariables_partial :
    SetArgEnvVariables testBuild (str "VAR1:value1,") =
      (some (.wrapString .errorInvalidEnvArgument []),
        { testBuild with argEnv := [(str "VAR1", str "value1")] }) ∧
    testBuild.argEnv = [] ∧
    (SetArgEnvVariables testBuild (str "VAR1:value1,")).2.argEnv ≠ testBuild.argEnv ∧
    (∀ (b : NodeBuild) (raw : GoString), raw ≠ [] →
      (SetArgEnvVariables b raw).2.argEnv =
        (((strings.Split raw 0x2C).takeWhile (fun e => !badArgEnvElement e)).map
          argEnvPair).foldl (fun m p => m.set p.1 p.2) b.argEnv) := by
  refine ⟨by decide, by decide, by decide, ?_⟩
  intro b raw hne
  simp only [SetArgEnvVariables, hne, if_false]
  exact setArgEnvLoop_map _ _

/-- C12, as the code has it: a dry run writes three reports and returns no
error; the report "node-command" is `marshallList` of the slice of the node
path, the npm path, "pack" and the flags, which is not nil; the report
"node-env" is `marshallList` of the slice `generateCommandEnvVariables`
returns, which is nil, so the report is the base64 text of `null`; the report
"node-package-name" is the file name as it is, not encoded. -/
theorem C12_Run_dry_reports (b : NodeBuild) (environ : List GoString) :
    ∃ filename flags cenv command menv,
      generateOutputFilename b = .ok filename ∧
      generateFlags b = .ok (some flags) ∧
      generateCommandEnvVariables b = .ok cenv ∧ cenv = none ∧
      marshallList (some ([b.node, b.npm, str "pack"] ++ flags)) = .ok command ∧
      marshallList cenv = .ok menv ∧ menv = base64.EncodeToString (str "null") ∧
      Run b true environ =
        { stdout := [setOutput (str "node-package-name") filename,
            setOutput (str "node-command") command, setOutput (str "node-env") menv],
          outcome := .returned none } := by
  refine ⟨_, [], none, _, _, rfl, rfl, rfl, rfl, marshallList_some _, marshallList_none,
    by decide, ?_⟩
  rw [Run_dry]
  rfl

/-- C12, the claim as stated fails on the builder of the tests: the first
report of the dry run is the plain text "foo-pkg-1.2.3.tgz", which is not what
`marshallList` returns for any slice, and the third is "bnVsbA==", the base64
text of `null`, which is not what `marshallList` returns for any slice that is
not nil. -/
theorem C12_Run_dry_reports_counterexample :
    (Run testBuild true []).stdout =
      [setOutput (str "node-package-name") (str "foo-pkg-1.2.3.tgz"),
        setOutput (str "node-command") (str "WyJub2RlIGNvbXBpbGVyIiwibnBtIiwicGFjayJd"),
        setOutput (str "node-env") (str "bnVsbA==")] ∧
    (∀ args : StringSlice, marshallList args ≠ .ok (str "foo-pkg-1.2.3.tgz")) ∧
    (∀ l : List GoString, marshallList (some l) ≠ .ok (str "bnVsbA==")) ∧
    base64.DecodeString (str "bnVsbA==") = some (str "null") := by
  refine ⟨by decide, ?_, marshallList_some_ne_null, by decide⟩
  intro args h
  have := marshallList_length args _ h
  revert this
  decide

/-- C13, as the code has it: the report "node-env" of a dry run is
`marshallList` of the result of `generateCommandEnvVariables`, without the
inherited environment, and is never `marshallList` of the result of
`generateEnvVariables`; a run that is not dry hands the result of
`generateEnvVariables`, the inherited environment followed by the command
variables, to `syscall.Exec`. -/
theorem C13_Run_dry_env_report (b : NodeBuild) (environ : List GoString) :
    ∃ cenv menv envs,
      generateCommandEnvVariables b = .ok cenv ∧
      marshallList cenv = .ok menv ∧
      (Run b true environ).stdout.getLast? = some (setOutput (str "node-env") menv) ∧
      generateEnvVariables b environ = .ok envs ∧
      envs = some (environ ++ cenv.elems) ∧
      marshallList envs ≠ .ok menv ∧
      (∃ com, (Run b false environ).outcome = .exec b.node com envs) := by
  refine ⟨none, _, some environ, rfl, marshallList_none, ?_, ?_, ?_,
    marshallList_some_ne_null environ, ?_⟩
  · rw [Run_dry]
    rfl
  · simp [generateEnvVariables, generateEnvVariablesFrom, generateCommandEnvVariables,
      appendSlice, StringSlice.elems]
  · simp [StringSlice.elems]
  · rw [Run_exec]
    exact ⟨_, rfl⟩

/-- C13, the claim as stated fails on the builder of the tests with the
inherited environment "PATH=/bin": the dry run reports "bnVsbA==", the text of
`null`, while `generateEnvVariables` returns the one entry "PATH=/bin", whose
encoding is "WyJQQVRIPS9iaW4iXQ==". -/
theorem C13_Run_dry_env_report_counterexample :
    (Run testBuild true [str "PATH=/bin"]).stdout.getLast? =
      some (setOutput (str "node-env") (str "bnVsbA==")) ∧
    generateEnvVariables testBuild [str "PATH=/bin"] = .ok (some [str "PATH=/bin"]) ∧
    marshallList (some [str "PATH=/bin"]) = .ok (str "WyJQQVRIPS9iaW4iXQ==") ∧
    setOutput (str "node-env") (str "bnVsbA==") ≠
      setOutput (str "node-env") (str "WyJQQVRIPS9iaW4iXQ==") := by
  decide

/-- C14: for every builder the argument vector of `Run` is the node path, the
npm path and "pack" followed by the flags `generateFlags` returns: a dry run
reports `marshallList` of it as "node-command", a run that is not dry hands it
to `syscall.Exec` with the node path as the program; its third element is
"pack", also after any call of `SetArgEnvVariables`. -/
theorem C14_Run_argument_vector (b : NodeBuild) (environ : List GoString) :
    ∃ flags command,
      generateFlags b = .ok (some flags) ∧
      marshallList (some ([b.node, b.npm, str "pack"] ++ flags)) = .ok command ∧
      (Run b true environ).stdout.get? 1 = some (setOutput (str "node-command") command) ∧
      (∃ envs, (Run b false environ).outcome =
        .exec b.node (some ([b.node, b.npm, str "pack"] ++ flags)) envs) ∧
      ([b.node, b.npm, str "pack"] ++ flags).get? 2 = some (str "pack") ∧
      (∀ raw : GoString, ∃ envs, (Run (SetArgEnvVariables b raw).2 false environ).outcome =
        .exec b.node (some ([b.node, b.npm, str "pack"] ++ flags)) envs) := by
  refine ⟨[], _, rfl, marshallList_some _, ?_, ?_, rfl, ?_⟩
  · rw [Run_dry]
    rfl
  · rw [Run_exec]
    exact ⟨_, rfl⟩
  · intro raw
    refine ⟨some environ, ?_⟩
    rw [Run_exec]
    simp only [SetArgEnvVariables]
    split <;> rfl

/-- C15: for every builder a dry run ends in one of two ways: it has written
the three reports "node-package-name", "node-command" and "node-env", in that
order and nothing else, and returns no error, or it has written nothing and
returns an error; on this code it is always the first. -/
theorem C15_Run_dry_all_or_nothing (b : NodeBuild) (environ : List GoString) :
    ((∃ v1 v2 v3, (Run b true environ).stdout =
        [setOutput (str "node-package-name") v1, setOutput (str "node-command") v2,
          setOutput (str "node-env") v3]) ∧
      (Run b true environ).outcome = .returned none) ∨
    ((Run b true environ).stdout = [] ∧
      ∃ err, (Run b true environ).outcome = .returned (some err)) := by
  left
  rw [Run_dry]
  exact ⟨⟨_, _, _, rfl⟩, rfl⟩

/-! ## Lemmas on `os.Environ` -/

/-- The environment after `copyenv`, without its empty entries, holds the
entries that are not empty and whose name no earlier entry has. -/
theorem syscall.copyenvLoop_filter (l : List GoString) :
    ∀ (seen pre : List GoString),
      (∀ k, k ∈ seen ↔ ∃ t ∈ pre, 0x3D ∈ t ∧ (envPair t).1 = k) →
        (syscall.copyenvLoop seen l).filter (fun s => decide (s ≠ [])) = keptAfter pre l := by
  induction l with
  | nil => intro seen pre _; rfl
  | cons s rest ih =>
    intro seen pre hinv
    rw [syscall.copyenvLoop, keptAfter]
    by_cases heq : 0x3D ∈ s
    · have hne : s ≠ [] := by
        intro h
        rw [h] at heq
        cases heq
      have hkey : s.takeWhile (fun b => decide (b ≠ 0x3D)) = (envPair s).1 := rfl
      simp only [heq, if_true, hkey]
      by_cases hseen : (envPair s).1 ∈ seen
      · have hinv' : ∀ k, k ∈ seen ↔ ∃ t ∈ pre ++ [s], 0x3D ∈ t ∧ (envPair t).1 = k := by
          intro k
          rw [hinv k]
          constructor
          · rintro ⟨t, ht, h1, h2⟩
            exact ⟨t, List.mem_append_left _ ht, h1, h2⟩
          · rintro ⟨t, ht, h1, h2⟩
            rcases List.mem_append.1 ht with ht | ht
            · exact ⟨t, ht, h1, h2⟩
            · have : t = s := by simpa using ht
              subst this
              rw [← h2]
              exact (hinv _).1 hseen
        have hcond : ¬ (s ≠ [] ∧ (True → ∀ t ∈ pre, 0x3D ∈ t → (envPair t).1 ≠ (envPair s).1)) := by
          rintro ⟨_, h⟩
          obtain ⟨t, ht, h1, h2⟩ := (hinv _).1 hseen
          exact h trivial t ht h1 h2
        rw [if_pos hseen, if_neg hcond, List.nil_append,
          List.filter_cons_of_neg (by simp)]
        exact ih seen (pre ++ [s]) hinv'
      · have hinv' : ∀ k, k ∈ (envPair s).1 :: seen ↔
            ∃ t ∈ pre ++ [s], 0x3D ∈ t ∧ (envPair t).1 = k := by
          intro k
          rw [List.mem_cons, hinv k]
          constructor
          · rintro (h | ⟨t, ht, h1, h2⟩)
            · exact ⟨s, List.mem_append_right _ (List.mem_singleton_self _), heq, h.symm⟩
            · exact ⟨t, List.mem_append_left _ ht, h1, h2⟩
          · rintro ⟨t, ht, h1, h2⟩
            rcases List.mem_append.1 ht with ht | ht
            · exact Or.inr ⟨t, ht, h1, h2⟩
            · have : t = s := by simpa using ht
              subst this
              exact Or.inl h2.symm
        have hcond : s ≠ [] ∧ (True → ∀ t ∈ pre, 0x3D ∈ t → (envPair t).1 ≠ (envPair s).1) := by
          refine ⟨hne, fun _ t ht h1 h2 => hseen ((hinv _).2 ⟨t, ht, h1, h2⟩)⟩
        rw [if_neg hseen, if_pos hcond, List.singleton_append,
          List.filter_cons_of_pos (by simpa using hne)]
        congr 1
        exact ih _ (pre ++ [s]) hinv'
    · have hinv' : ∀ k, k ∈ seen ↔ ∃ t ∈ pre ++ [s], 0x3D ∈ t ∧ (envPair t).1 = k := by
        intro k
        rw [hinv k]
        constructor
        · rintro ⟨t, ht, h1, h2⟩
          exact ⟨t, List.mem_append_left _ ht, h1, h2⟩
        · rintro ⟨t, ht, h1, h2⟩
          rcases List.mem_append.1 ht with ht | ht
          · exact ⟨t, ht, h1, h2⟩
          · have : t = s := by simpa using ht
            subst this
            exact absurd h1 heq
      simp only [heq, if_false, false_implies, and_true]
      by_cases hne : s = []
      · subst hne
        simp only [ne_eq, not_true_eq_false, if_false, List.nil_append]
        rw [List.filter_cons_of_neg (by simp)]
        exact ih seen _ hinv'
      · simp only [ne_eq, hne, not_false_eq_true, if_true, List.singleton_append]
        rw [List.filter_cons_of_pos (by simpa using hne)]
        congr 1
        exact ih seen _ hinv'

theorem os.Environ_eq_keptAfter (inherited : List GoString) :
    os.Environ inherited = keptAfter [] inherited :=
  syscall.copyenvLoop_filter inherited [] [] (by simp)

theorem keptAfter_sublist (l : List GoString) :
    ∀ pre : List GoString, (keptAfter pre l).Sublist l := by
  induction l with
  | nil => intro pre; exact List.Sublist.slnil
  | cons s rest ih =>
    intro pre
    rw [keptAfter]
    split
    · exact (ih _).cons₂ s
    · exact (ih _).cons s

/-! ## Claims C16 to C20 -/

/-- C16, as the code has it: `generateFlags` reads no flag list, a `NodeBuild`
holds none: for every builder it returns no error and no flag; so for a flag
list that holds an allowed and a disallowed entry it returns neither the error
`errorUnsupportedArguments` for the disallowed entry nor the allowed subset of
the list, and it returns the allowed subset of no flag list that has an
allowed entry. -/
theorem C16_generateFlags_reads_no_flags (b : NodeBuild) :
    (∀ err, generateFlags b ≠ .error err) ∧
    (∀ out, generateFlags b = .ok out → out.elems = []) ∧
    (∀ (flags : List GoString) (f : GoString), f ∈ flags → isAllowedArg f = true →
      generateFlags b ≠ .ok (some (flags.filter isAllowedArg))) ∧
    (∀ (flags : List GoString) (a d : GoString), a ∈ flags → d ∈ flags →
      isAllowedArg a = true → isAllowedArg d = false →
        generateFlags b ≠ .error (.wrapString .errorUnsupportedArguments d) ∧
        generateFlags b ≠ .ok (some (flags.filter isAllowedArg))) := by
  have hsub : ∀ (flags : List GoString) (f : GoString), f ∈ flags → isAllowedArg f = true →
      generateFlags b ≠ .ok (some (flags.filter isAllowedArg)) := by
    intro flags f hf ha h
    have hmem : f ∈ flags.filter isAllowedArg := List.mem_filter.2 ⟨hf, ha⟩
    simp only [generateFlags, Except.ok.injEq, Option.some.injEq] at h
    rw [← h] at hmem
    cases hmem
  refine ⟨?_, ?_, hsub, ?_⟩
  · intro err h
    cases h
  · intro out h
    cases h
    rfl
  · intro flags a d ha _ hal _
    refine ⟨?_, hsub flags a ha hal⟩
    intro h
    cases h

/-- C16, the claim as stated fails on the flag list "--workspace", "-x", which
holds one allowed and one disallowed entry: a configuration of version 1 with
these flags is accepted by `fromConfig` with its flags unchanged, and
`generateFlags` on the builder of the tests returns the empty slice and no
error, not the error for "-x". -/
theorem C16_generateFlags_counterexample :
    isAllowedArg (str "--workspace") = true ∧
    isAllowedArg (str "-x") = false ∧
    (fromConfig
      { Goos := [], Goarch := [], Env := none, Flags := some [str "--workspace", str "-x"],
        Ldflags := none, Binary := [], Version := 1 }).toOption.map (fun c => c.Flags) =
      some (some [str "--workspace", str "-x"]) ∧
    generateFlags testBuild = .ok (some []) ∧
    generateFlags testBuild ≠
      .error (.wrapString .errorUnsupportedArguments (str "-x")) := by
  decide

/-- C17, as the code has it: `generateCommandEnvVariables` reads no env
mapping, a `NodeBuild` holds no configuration: for every builder it checks no
name, returns no error and returns the nil slice, so every entry it returns,
there being none, has an allowed name. -/
theorem C17_generateCommandEnvVariables_reads_no_env (b : NodeBuild) :
    generateCommandEnvVariables b = .ok none ∧
    (∀ err, generateCommandEnvVariables b ≠ .error err) ∧
    (∀ out, generateCommandEnvVariables b = .ok out →
      ∀ e ∈ out.elems, isAllowedEnvVariable (envPair e).1 = true) := by
  refine ⟨rfl, ?_, ?_⟩
  · intro err h
    cases h
  · intro out h e he
    cases h
    cases he

/-- C17, the claim as stated fails on the env list "VAR1=value1",
"VAR2=value2": neither name is allowed, a configuration of version 1 with this
list is accepted by `fromConfig` with both names in its mapping, and
`generateCommandEnvVariables` on the builder of the tests, also after the two
pairs were passed to `SetArgEnvVariables`, returns the nil slice and no error,
not the error `errorEnvVariableNameNotAllowed`. -/
theorem C17_generateCommandEnvVariables_counterexample :
    isAllowedEnvVariable (str "VAR1") = false ∧
    isAllowedEnvVariable (str "VAR2") = false ∧
    (fromConfig
      { Goos := [], Goarch := [], Env := some [str "VAR1=value1", str "VAR2=value2"],
        Flags := none, Ldflags := none, Binary := [], Version := 1 }).toOption.map
        (fun c => c.Env) =
      some (some [(str "VAR1", str "value1"), (str "VAR2", str "value2")]) ∧
    generateCommandEnvVariables testBuild = .ok none ∧
    generateCommandEnvVariables
      (SetArgEnvVariables testBuild (str "VAR1:value1, VAR2:value2")).2 = .ok none ∧
    generateCommandEnvVariables testBuild ≠
      .error (.wrapString .errorEnvVariableNameNotAllowed (str "value1")) ∧
    generateCommandEnvVariables testBuild ≠
      .error (.wrapString .errorEnvVariableNameNotAllowed (str "VAR1")) := by
  decide

/-- C18, as the code has it: `generateEnvVariables` returns the error of
`generateCommandEnvVariables` when there is one, and succeeds otherwise with
the list `os.Environ()` returned followed by the result of
`generateCommandEnvVariables`, whatever that result is, so that no entry of
that list is removed, reordered or deduplicated; on this code the result is
that list itself.  What `os.Environ()` returns for a process started with the
environment block `inherited` are the entries of the block in order, without
the empty ones and without every entry `NAME=VALUE` whose name an earlier
entry has. -/
theorem C18_generateEnvVariables_environ (b : NodeBuild) (inherited : List GoString) :
    (∀ environ : List GoString, generateEnvVariables b environ =
      generateEnvVariablesFrom environ (generateCommandEnvVariables b)) ∧
    (∀ (environ : List GoString) (cenv : StringSlice),
      generateEnvVariablesFrom environ (.ok cenv) = .ok (some (environ ++ cenv.elems))) ∧
    (∀ (environ : List GoString) (err : GoError),
      generateEnvVariablesFrom environ (.error err) = .error err) ∧
    (∀ (environ : List GoString) (cenv : StringSlice),
      generateCommandEnvVariables b = .ok cenv →
        generateEnvVariables b environ = .ok (some (environ ++ cenv.elems))) ∧
    generateEnvVariablesFrom [str "PATH=/bin", str "NODE_ENV=a"]
        (.ok (some [str "NODE_ENV=b", str "PATH=/bin"])) =
      .ok (some [str "PATH=/bin", str "NODE_ENV=a", str "NODE_ENV=b", str "PATH=/bin"]) ∧
    generateEnvVariables b (os.Environ inherited) = .ok (some (os.Environ inherited)) ∧
    os.Environ inherited = keptAfter [] inherited ∧
    (os.Environ inherited).Sublist inherited := by
  have hfrom : ∀ (environ : List GoString) (cenv : StringSlice),
      generateEnvVariablesFrom environ (.ok cenv) = .ok (some (environ ++ cenv.elems)) := by
    intro environ cenv
    simp only [generateEnvVariablesFrom, appendSlice_some]
  refine ⟨fun _ => rfl, hfrom, fun _ _ => rfl, ?_, by decide, ?_, os.Environ_eq_keptAfter _,
    ?_⟩
  · intro environ cenv h
    simp only [generateEnvVariables, h, hfrom]
  · simp only [generateEnvVariables, generateCommandEnvVariables, hfrom, StringSlice.elems,
      List.append_nil]
  · rw [os.Environ_eq_keptAfter]
    exact keptAfter_sublist _ _

/-- C18, the claim as stated fails for a process started with the environment
block "A=1", "B=2", "A=1": `os.Environ()` returns "A=1", "B=2", the second
entry with the name A being cleared, so `generateEnvVariables` returns these
two entries and not the three of the block. -/
theorem C18_generateEnvVariables_counterexample :
    os.Environ [str "A=1", str "B=2", str "A=1"] = [str "A=1", str "B=2"] ∧
    generateCommandEnvVariables testBuild = .ok none ∧
    generateEnvVariables testBuild (os.Environ [str "A=1", str "B=2", str "A=1"]) =
      .ok (some [str "A=1", str "B=2"]) ∧
    generateEnvVariables testBuild (os.Environ [str "A=1", str "B=2", str "A=1"]) ≠
      .ok (some ([str "A=1", str "B=2", str "A=1"] ++ StringSlice.elems none)) := by
  decide

/-- C19: for a configuration with a supported version whose env entries each
split into exactly two parts at '=', `fromConfig` succeeds; `Goos`, `Goarch`,
`Flags`, `Ldflags` and `Binary` are copied; `Env` is the nil map when the env
list is empty, and otherwise a map that holds exactly the names of the
entries, each with the value of the last entry with that name. -/
theorem C19_fromConfig_resolved (cf : goReleaserConfigFile)
    (hv : cf.Version ∈ supportedVersions)
    (hgood : ∀ e ∈ cf.Env.elems, (strings.Split e 0x3D).length = 2) :
    ∃ cfg, fromConfig cf = .ok cfg ∧
      cfg.Goos = cf.Goos ∧ cfg.Goarch = cf.Goarch ∧ cfg.Flags = cf.Flags ∧
      cfg.Ldflags = cf.Ldflags ∧ cfg.Binary = cf.Binary ∧
      (cf.Env.elems = [] → cfg.Env = none) ∧
      (cf.Env.elems ≠ [] → ∃ m, cfg.Env = some m ∧ m ≠ [] ∧
        (∀ k, m.get k = lastValue (cf.Env.elems.map envPair) k) ∧
        (∀ k, (m.get k).isSome = true ↔ ∃ e ∈ cf.Env.elems, (envPair e).1 = k)) := by
  have hloop := setEnvsLoop_ok cf.Env.elems [] hgood
  have hget : ∀ k, StringMap.get ((cf.Env.elems.map envPair).foldl
      (fun m p => StringMap.set m p.1 p.2) ([] : StringMap)) k =
        lastValue (cf.Env.elems.map envPair) k := by
    intro k
    rw [StringMap.get_foldl_set, foldl_updateLookup]
    cases lastValue (cf.Env.elems.map envPair) k <;> rfl
  have hfc : fromConfig cf =
      if ((cf.Env.elems.map envPair).foldl (fun m p => StringMap.set m p.1 p.2)
          ([] : StringMap)).length > 0 then
        .ok { Goos := cf.Goos, Goarch := cf.Goarch,
              Env := some ((cf.Env.elems.map envPair).foldl
                (fun m p => StringMap.set m p.1 p.2) ([] : StringMap)),
              Flags := cf.Flags, Ldflags := cf.Ldflags, Binary := cf.Binary }
      else
        .ok { Goos := cf.Goos, Goarch := cf.Goarch, Env := none, Flags := cf.Flags,
              Ldflags := cf.Ldflags, Binary := cf.Binary } := by
    rw [fromConfig_supported cf hv]
    unfold setEnvs
    rw [hloop]
  by_cases hnil : cf.Env.elems = []
  · have h0 : ¬ ((cf.Env.elems.map envPair).foldl (fun m p => StringMap.set m p.1 p.2)
        ([] : StringMap)).length > 0 := by
      rw [hnil]
      simp
    rw [if_neg h0] at hfc
    exact ⟨_, hfc, rfl, rfl, rfl, rfl, rfl, fun _ => rfl, fun h => absurd hnil h⟩
  · have hne : (cf.Env.elems.map envPair).foldl (fun m p => StringMap.set m p.1 p.2)
        ([] : StringMap) ≠ [] :=
      StringMap.foldl_set_ne_nil _ _ (Or.inr (by simpa using hnil))
    have hpos : ((cf.Env.elems.map envPair).foldl (fun m p => StringMap.set m p.1 p.2)
        ([] : StringMap)).length > 0 := List.length_pos.2 hne
    rw [if_pos hpos] at hfc
    refine ⟨_, hfc, rfl, rfl, rfl, rfl, rfl, fun h => absurd h hnil,
      fun _ => ⟨_, rfl, hne, hget, ?_⟩⟩
    intro k
    rw [hget, lastValue_isSome]
    simp

/-- C19 on a configuration of version 1 with the env list "A=1", "B=2",
"A=3". -/
theorem C19_fromConfig_resolved_witness :
    ∃ cfg, fromConfig
        { Goos := str "linux", Goarch := str "amd64",
          Env := some [str "A=1", str "B=2", str "A=3"], Flags := some [str "-x"],
          Ldflags := none, Binary := str "bin", Version := 1 } = .ok cfg ∧
      cfg.Goos = str "linux" ∧ cfg.Flags = some [str "-x"] ∧
      (∃ m, cfg.Env = some m ∧ m.get (str "A") = some (str "3") ∧
        m.get (str "B") = some (str "2") ∧ m.get (str "C") = none) := by
  obtain ⟨cfg, h, h1, _, h3, _, _, _, h7⟩ := C19_fromConfig_resolved
    { Goos := str "linux", Goarch := str "amd64",
      Env := some [str "A=1", str "B=2", str "A=3"], Flags := some [str "-x"],
      Ldflags := none, Binary := str "bin", Version := 1 } (by decide) (by decide)
  obtain ⟨m, hm, _, hget, _⟩ := h7 (by decide)
  refine ⟨cfg, h, h1, h3, m, hm, ?_, ?_, ?_⟩
  · rw [hget]; decide
  · rw [hget]; decide
  · rw [hget]; decide

/-- C20: for every builder, whatever its node path, npm path, package
descriptor and `argEnv` mapping, also after a call of `SetArgEnvVariables`,
`generateFlags` returns the empty sequence and no error. -/
theorem C20_generateFlags_empty (node npm : GoString) (pkgJson : PkgJsonConfig)
    (argEnv : StringMap) :
    generateFlags { pkgJson := pkgJson, node := node, npm := npm, argEnv := argEnv } =
      .ok (some []) ∧
    (∀ b : NodeBuild, generateFlags b = .ok (some []) ∧
      ∀ raw, generateFlags (SetArgEnvVariables b raw).2 = .ok (some [])) :=
  ⟨rfl, fun _ => ⟨rfl, fun _ => rfl⟩⟩

/-! ## Claim C21 -/

theorem SetArgEnvVariables_fields (b : NodeBuild) (raw : GoString) :
    (SetArgEnvVariables b raw).2.node = b.node ∧
    (SetArgEnvVariables b raw).2.npm = b.npm ∧
    (SetArgEnvVariables b raw).2.pkgJson = b.pkgJson := by
  unfold SetArgEnvVariables
  split <;> exact ⟨rfl, rfl, rfl⟩

theorem setArgEnvCalls_fields (raws : List GoString) :
    ∀ b : NodeBuild, (setArgEnvCalls b raws).node = b.node ∧
      (setArgEnvCalls b raws).npm = b.npm ∧ (setArgEnvCalls b raws).pkgJson = b.pkgJson := by
  induction raws with
  | nil => intro b; exact ⟨rfl, rfl, rfl⟩
  | cons raw rest ih =>
    intro b
    have h := ih (SetArgEnvVariables b raw).2
    have h' := SetArgEnvVariables_fields b raw
    simp only [setArgEnvCalls, List.foldl_cons] at h ⊢
    exact ⟨h.1.trans h'.1, h.2.1.trans h'.2.1, h.2.2.trans h'.2.2⟩

/-- What `Run` does depends on the node path, the npm path and the package
descriptor of the builder only, not on its `argEnv`. -/
theorem Run_congr (b1 b2 : NodeBuild) (hnode : b1.node = b2.node) (hnpm : b1.npm = b2.npm)
    (hpkg : b1.pkgJson = b2.pkgJson) (dry : Bool) (environ : List GoString) :
    Run b1 dry environ = Run b2 dry environ := by
  cases dry
  · rw [Run_exec, Run_exec, hnode, hnpm]
  · rw [Run_dry, Run_dry, hnode, hnpm, hpkg]

/-- C21: two builders that agree on the node path, the npm path and the package
descriptor, whatever their `argEnv` mappings, also after any sequences of calls
of `SetArgEnvVariables`, give with the same inherited environment the same
dry run, writes and result, and the same run that is not dry: the same writes
and the same call of `syscall.Exec`, whose program is the node path, whose
argument vector is the node path, the npm path and "pack", and whose
environment is the inherited one. -/
theorem C21_Run_argEnv_noninterference (b1 b2 : NodeBuild) (hnode : b1.node = b2.node)
    (hnpm : b1.npm = b2.npm) (hpkg : b1.pkgJson = b2.pkgJson) (environ : List GoString) :
    Run b1 true environ = Run b2 true environ ∧
    Run b1 false environ = Run b2 false environ ∧
    (∀ (raws1 raws2 : List GoString) (dry : Bool),
      Run (setArgEnvCalls b1 raws1) dry environ = Run (setArgEnvCalls b2 raws2) dry environ) ∧
    (Run b1 false environ).outcome =
      .exec b1.node (some [b1.node, b1.npm, str "pack"]) (some environ) ∧
    (Run b2 false environ).outcome =
      .exec b1.node (some [b1.node, b1.npm, str "pack"]) (some environ) := by
  refine ⟨Run_congr b1 b2 hnode hnpm hpkg true environ,
    Run_congr b1 b2 hnode hnpm hpkg false environ, ?_, ?_, ?_⟩
  · intro raws1 raws2 dry
    have h1 := setArgEnvCalls_fields raws1 b1
    have h2 := setArgEnvCalls_fields raws2 b2
    exact Run_congr _ _ (h1.1.trans (hnode.trans h2.1.symm))
      (h1.2.1.trans (hnpm.trans h2.2.1.symm)) (h1.2.2.trans (hpkg.trans h2.2.2.symm)) dry environ
  · rw [Run_exec]
  · rw [Run_exec, hnode, hnpm]

/-- C21 on the builder of the tests and the same builder after the call of
`SetArgEnvVariables` with "LD_PRELOAD:/tmp/x.so": the `argEnv` mappings
differ, the dry runs and the runs that are not dry are the same, and the
environment handed to `syscall.Exec` is the inherited one. -/
theorem C21_Run_argEnv_noninterference_witness :
    testBuild.argEnv ≠ (SetArgEnvVariables testBuild (str "LD_PRELOAD:/tmp/x.so")).2.argEnv ∧
    Run testBuild true [str "PATH=/bin"] =
      Run (SetArgEnvVariables testBuild (str "LD_PRELOAD:/tmp/x.so")).2 true [str "PATH=/bin"] ∧
    Run testBuild false [str "PATH=/bin"] =
      Run (SetArgEnvVariables testBuild (str "LD_PRELOAD:/tmp/x.so")).2 false
        [str "PATH=/bin"] ∧
    (Run (SetArgEnvVariables testBuild (str "LD_PRELOAD:/tmp/x.so")).2 false
        [str "PATH=/bin"]).outcome =
      .exec (str "node compiler") (some [str "node compiler", str "npm", str "pack"])
        (some [str "PATH=/bin"]) := by
  have h := C21_Run_argEnv_noninterference testBuild
    (SetArgEnvVariables testBuild (str "LD_PRELOAD:/tmp/x.so")).2 (by decide) (by decide)
    (by decide) [str "PATH=/bin"]
  exact ⟨by decide, h.1, h.2.1, h.2.2.2.2⟩
